import Mathlib

namespace VocSign

/-- Base64 standard alphabet: sextet value to character code. -/
def b64Char (n : Nat) : Nat :=
  if n < 26 then 65 + n
  else if n < 52 then 97 + (n - 26)
  else if n < 62 then 48 + (n - 52)
  else if n = 62 then 43
  else 47

/-- Base64 standard alphabet: character code to sextet value. -/
def b64Val (c : Nat) : Option Nat :=
  if 65 ≤ c ∧ c ≤ 90 then some (c - 65)
  else if 97 ≤ c ∧ c ≤ 122 then some (c - 71)
  else if 48 ≤ c ∧ c ≤ 57 then some (c + 4)
  else if c = 43 then some 62
  else if c = 47 then some 63
  else none

/-- Standard base64 encoding with padding (Go encoding/base64 StdEncoding). -/
def b64Encode : List Nat → List Nat
  | [] => []
  | [a] => [b64Char (a / 4), b64Char (a % 4 * 16), 61, 61]
  | [a, b] => [b64Char (a / 4), b64Char (a % 4 * 16 + b / 16), b64Char (b % 16 * 4), 61]
  | a :: b :: c :: rest =>
      b64Char (a / 4) :: b64Char (a % 4 * 16 + b / 16) ::
      b64Char (b % 16 * 4 + c / 64) :: b64Char (c % 64) :: b64Encode rest

/-- Standard base64 decoding with padding. -/
def b64Decode : List Nat → Option (List Nat)
  | [] => some []
  | c1 :: c2 :: c3 :: c4 :: rest =>
    match b64Val c1, b64Val c2 with
    | some s1, some s2 =>
      if c3 = 61 then
        if c4 = 61 ∧ rest = [] then some [s1 * 4 + s2 / 16] else none
      else
        match b64Val c3 with
        | some s3 =>
          if c4 = 61 then
            if rest = [] then some [s1 * 4 + s2 / 16, s2 % 16 * 16 + s3 / 4] else none
          else
            match b64Val c4 with
            | some s4 =>
              (b64Decode rest).map
                (fun tail =>
                  (s1 * 4 + s2 / 16) :: (s2 % 16 * 16 + s3 / 4) :: (s3 % 4 * 64 + s4) :: tail)
            | none => none
        | none => none
    | _, _ => none
  | _ => none

/-- Base64 URL-safe alphabet (RawURLEncoding): character code to sextet value. -/
def b64UrlVal (c : Nat) : Option Nat :=
  if 65 ≤ c ∧ c ≤ 90 then some (c - 65)
  else if 97 ≤ c ∧ c ≤ 122 then some (c - 71)
  else if 48 ≤ c ∧ c ≤ 57 then some (c + 4)
  else if c = 45 then some 62
  else if c = 95 then some 63
  else none

/-- Unpadded URL-safe base64 decoding (Go base64.RawURLEncoding.DecodeString).
A trailing quantum of 2 or 3 characters yields 1 or 2 bytes; a single
trailing character is an encoding error. -/
def b64UrlDecode : List Nat → Option (List Nat)
  | [] => some []
  | [_] => none
  | [c1, c2] =>
    match b64UrlVal c1, b64UrlVal c2 with
    | some s1, some s2 => some [s1 * 4 + s2 / 16]
    | _, _ => none
  | [c1, c2, c3] =>
    match b64UrlVal c1, b64UrlVal c2, b64UrlVal c3 with
    | some s1, some s2, some s3 => some [s1 * 4 + s2 / 16, s2 % 16 * 16 + s3 / 4]
    | _, _, _ => none
  | c1 :: c2 :: c3 :: c4 :: rest =>
    match b64UrlVal c1, b64UrlVal c2, b64UrlVal c3, b64UrlVal c4 with
    | some s1, some s2, some s3, some s4 =>
      (b64UrlDecode rest).map
        (fun tail =>
          (s1 * 4 + s2 / 16) :: (s2 % 16 * 16 + s3 / 4) :: (s3 % 4 * 64 + s4) :: tail)
    | _, _, _, _ => none

/-- Quantum loop of Go's StdEncoding decoder on newline-free input: an
erroring quantum contributes no bytes (a lone "=" in the third slot must be
followed by a second "=", otherwise the whole quantum is dropped), a padded
quantum ends the decode, keeping its own bytes even when data trails it. -/
def b64DecodePartialAux : List Nat → List Nat
  | c1 :: c2 :: c3 :: c4 :: rest =>
    match b64Val c1, b64Val c2 with
    | some s1, some s2 =>
      if c3 = 61 then
        if c4 = 61 then [s1 * 4 + s2 / 16] else []
      else
        match b64Val c3 with
        | some s3 =>
          if c4 = 61 then [s1 * 4 + s2 / 16, s2 % 16 * 16 + s3 / 4]
          else
            match b64Val c4 with
            | some s4 =>
              (s1 * 4 + s2 / 16) :: (s2 % 16 * 16 + s3 / 4) :: (s3 % 4 * 64 + s4) ::
                b64DecodePartialAux rest
            | none => []
        | none => []
    | _, _ => []
  | _ => []

/-- Lenient standard base64 decoding modelling Go's
`bytes, _ := base64.StdEncoding.DecodeString(s)` with the error discarded:
carriage returns and newlines are skipped anywhere, and the bytes decoded
before the first bad quantum are kept. -/
def b64DecodePartial (s : List Nat) : List Nat :=
  b64DecodePartialAux (s.filter (fun c => if c = 10 ∨ c = 13 then false else true))

/-! ### SHA-256 (FIPS 180-4), executable; bytes are `Nat` values below 256. -/

/-- 32-bit truncation. -/
def wmask (x : Nat) : Nat := x % 4294967296

/-- 32-bit rotate right. -/
def rotr (n x : Nat) : Nat := wmask ((x >>> n) ||| (x <<< (32 - n)))

def bigSigma0 (x : Nat) : Nat := rotr 2 x ^^^ rotr 13 x ^^^ rotr 22 x
def bigSigma1 (x : Nat) : Nat := rotr 6 x ^^^ rotr 11 x ^^^ rotr 25 x
def smallSigma0 (x : Nat) : Nat := rotr 7 x ^^^ rotr 18 x ^^^ (x >>> 3)
def smallSigma1 (x : Nat) : Nat := rotr 17 x ^^^ rotr 19 x ^^^ (x >>> 10)
def chF (x y z : Nat) : Nat := (x &&& y) ^^^ ((x ^^^ 4294967295) &&& z)
def majF (x y z : Nat) : Nat := (x &&& y) ^^^ (x &&& z) ^^^ (y &&& z)

def shaK : List Nat :=
  [1116352408, 1899447441, 3049323471, 3921009573, 961987163, 1508970993,
   2453635748, 2870763221, 3624381080, 310598401, 607225278, 1426881987,
   1925078388, 2162078206, 2614888103, 3248222580, 3835390401, 4022224774,
   264347078, 604807628, 770255983, 1249150122, 1555081692, 1996064986,
   2554220882, 2821834349, 2952996808, 3210313671, 3336571891, 3584528711,
   113926993, 338241895, 666307205, 773529912, 1294757372, 1396182291,
   1695183700, 1986661051, 2177026350, 2456956037, 2730485921, 2820302411,
   3259730800, 3345764771, 3516065817, 3600352804, 4094571909, 275423344,
   430227734, 506948616, 659060556, 883997877, 958139571, 1322822218,
   1537002063, 1747873779, 1955562222, 2024104815, 2227730452, 2361852424,
   2428436474, 2756734187, 3204031479, 3329325298]

def shaH0 : List Nat :=
  [1779033703, 3144134277, 1013904242, 2773480762, 1359893119, 2600822924,
   528734635, 1541459225]

/-- SHA-256 padding: append 0x80, zero bytes, then the 64-bit big-endian bit length. -/
def shaPad (msg : List Nat) : List Nat :=
  let l := msg.length
  let k := (64 - (l + 9) % 64) % 64
  let bits := l * 8
  msg ++ 128 :: List.replicate k 0 ++
    [bits / 2 ^ 56 % 256, bits / 2 ^ 48 % 256, bits / 2 ^ 40 % 256, bits / 2 ^ 32 % 256,
     bits / 2 ^ 24 % 256, bits / 2 ^ 16 % 256, bits / 2 ^ 8 % 256, bits % 256]

/-- Split a byte list into big-endian 32-bit words. -/
def bytesToWords : List Nat → List Nat
  | b0 :: b1 :: b2 :: b3 :: rest => (b0 * 2 ^ 24 + b1 * 2 ^ 16 + b2 * 2 ^ 8 + b3) :: bytesToWords rest
  | _ => []

/-- Split into 64-byte blocks (fuelled structural recursion; the fuel
`l.length` always suffices because each step consumes at least one byte). -/
def chunks64F : Nat → List Nat → List (List Nat)
  | _, [] => []
  | 0, _ => []
  | fuel + 1, l => l.take 64 :: chunks64F fuel (l.drop 64)

def chunks64 (l : List Nat) : List (List Nat) := chunks64F l.length l

/-- Extend 16 message words to the 64-entry schedule. -/
def shaExtend (w : List Nat) : Nat → List Nat
  | 0 => w
  | n + 1 =>
    let w := shaExtend w n
    let i := w.length
    w ++ [wmask (smallSigma1 (w.getD (i - 2) 0) + w.getD (i - 7) 0 +
                 smallSigma0 (w.getD (i - 15) 0) + w.getD (i - 16) 0)]

/-- One compression round. -/
def shaRound (st : List Nat) (kw : Nat × Nat) : List Nat :=
  match st with
  | [a, b, c, d, e, f, g, h] =>
    let t1 := wmask (h + bigSigma1 e + chF e f g + kw.1 + kw.2)
    let t2 := wmask (bigSigma0 a + majF a b c)
    [wmask (t1 + t2), a, b, c, wmask (d + t1), e, f, g]
  | st => st

/-- Process one 64-byte block. -/
def shaBlock (h : List Nat) (block : List Nat) : List Nat :=
  let w := shaExtend (bytesToWords block) 48
  let st := (shaK.zip w).foldl shaRound h
  (h.zip st).map (fun p => wmask (p.1 + p.2))

/-- Serialize a 32-bit word big-endian. -/
def wordBytes (w : Nat) : List Nat :=
  [w / 2 ^ 24 % 256, w / 2 ^ 16 % 256, w / 2 ^ 8 % 256, w % 256]

/-- SHA-256 of a byte list (crypto/sha256 Sum256). -/
def sha256 (msg : List Nat) : List Nat :=
  ((chunks64 (shaPad msg)).foldl shaBlock shaH0).flatMap wordBytes

/-! ### HMAC-SHA256 and PBKDF2 (RFC 2104 / RFC 8018), as used by
golang.org/x/crypto/pbkdf2 with sha256.New. -/

def hmacSha256 (key msg : List Nat) : List Nat :=
  let key := if key.length > 64 then sha256 key else key
  let key := key ++ List.replicate (64 - key.length) 0
  let ipad := key.map (fun b => b ^^^ 54)
  let opad := key.map (fun b => b ^^^ 92)
  sha256 (opad ++ sha256 (ipad ++ msg))

/-- Iterate `u_{i+1} = PRF(pw, u_i)` XOR-accumulated, `iters - 1` further rounds. -/
def pbkdf2Iter (password : List Nat) (u acc : List Nat) : Nat → List Nat
  | 0 => acc
  | n + 1 =>
    let u' := hmacSha256 password u
    pbkdf2Iter password u' ((acc.zip u').map (fun p => p.1 ^^^ p.2)) n

/-- One PBKDF2 block T_i. -/
def pbkdf2Block (password salt : List Nat) (iters i : Nat) : List Nat :=
  let u1 := hmacSha256 password (salt ++ wordBytes i)
  pbkdf2Iter password u1 u1 (iters - 1)

/-- PBKDF2-HMAC-SHA256 with hLen = 32. -/
def pbkdf2HmacSha256 (password salt : List Nat) (iters keyLen : Nat) : List Nat :=
  let nBlocks := (keyLen + 31) / 32
  ((List.range nBlocks).flatMap (fun i => pbkdf2Block password salt iters (i + 1))).take keyLen

/-! ### Vault crypto (internal/crypto/pkcs12store/vault_crypto.go).

The AES-256-GCM AEAD is the Go standard library's `cipher.NewGCM(aes)`;
it is external to this repository and is abstracted as a `GCM` record of a
seal and an open function. `aes.NewCipher` never fails for the 32-byte key
produced by `vaultDeriveKey`, so that error path vanishes. -/

structure GCM where
  aeadSeal : List Nat → List Nat → List Nat → List Nat
  aeadOpen : List Nat → List Nat → List Nat → Option (List Nat)

/-- vaultDeriveKey: pbkdf2.Key(password, salt, 4096, 32, sha256.New). -/
def vaultDeriveKey (password salt : List Nat) : List Nat :=
  pbkdf2HmacSha256 password salt 4096 32

inductive VaultError where
  | tooShort
  | authFailed
deriving DecidableEq, Repr

/-- EncryptData with the freshly generated salt and nonce made explicit inputs
(the Go code reads them from crypto/rand). -/
def EncryptData (gcm : GCM) (password salt nonce data : List Nat) : List Nat :=
  salt ++ nonce ++ gcm.aeadSeal (vaultDeriveKey password salt) nonce data

/-- DecryptData: length check, split 16-byte salt (data[:16]) / 12-byte nonce
(data[16:28]) / ciphertext (data[28:]), re-derive the key and open. A GCM open
failure is Go's "cipher: message authentication failed" error, modelled as
`authFailed`. -/
def DecryptData (gcm : GCM) (password data : List Nat) : Except VaultError (List Nat) :=
  if data.length < 16 + 12 then .error .tooShort
  else
    match gcm.aeadOpen (vaultDeriveKey password (data.take 16)) ((data.drop 16).take 12)
        (data.drop 28) with
    | some plain => .ok plain
    | none => .error .authFailed

/-- A concrete AEAD satisfying the GCM laws, used to witness vault theorems:
the tag is 16 constant bytes and the key is ignored. -/
def dummyGcm : GCM where
  aeadSeal := fun _ _ msg => msg ++ List.replicate 16 0
  aeadOpen := fun _ _ ct => if ct.length < 16 then none else some (ct.take (ct.length - 16))

/-! ### Manifest data model (internal/model/request.go). -/

structure FullText where
  url : String
  sha256 : String
deriving DecidableEq, Repr

structure Proposal where
  title : String
  promoter : String
  jurisdiction : String
  summary : String
  legalStatement : String
  fullText : FullText
deriving DecidableEq, Repr

structure Callback where
  url : String
  method : String
deriving DecidableEq, Repr

structure Organizer where
  kid : String
  jwkSetUrl : String
deriving DecidableEq, Repr

structure OrganizerSignature where
  format : String
  value : String
deriving DecidableEq, Repr

/-- SignPolicy; the omitempty string fields are empty when absent. -/
structure SignPolicy where
  mode : String
  oid : String
  hashAlg : String
  hash : String
  uri : String
deriving DecidableEq, Repr

structure SignRequest where
  version : String
  requestId : String
  issuedAt : String
  expiresAt : String
  nonce : String
  proposal : Proposal
  callback : Callback
  organizer : Organizer
  organizerSignature : Option OrganizerSignature
  policy : Option SignPolicy
deriving DecidableEq, Repr

/-! ### Sign response construction (internal/ui/screens/types.go, sign goroutine,
and internal/model SignResponse). -/

structure ClientInfo where
  app : String
  version : String
  os : String
deriving DecidableEq, Repr

structure SignResponseM where
  version : String
  requestId : String
  nonce : String
  signedAt : String
  payloadCanonicalSha256 : List Nat
  signatureFormat : String
  signatureDerBase64 : List Nat
  signerCertPem : String
  chainPem : List String
  signerXmlBase64 : List Nat
  client : ClientInfo
deriving DecidableEq, Repr

/-- The model.SignResponse literal built in the signing goroutine: base64 of the
SHA-256 of the XML payload, base64 of the signature DER and of the XML itself,
the request's nonce echoed, and the constant format string. -/
def buildSignResponse (req : SignRequest) (xmlBytes signatureDER : List Nat)
    (signedAt certPEM : String) (chainPEM : List String) (osName : String) : SignResponseM :=
  { version := "1.0"
    requestId := req.requestId
    nonce := req.nonce
    signedAt := signedAt
    payloadCanonicalSha256 := b64Encode (sha256 xmlBytes)
    signatureFormat := "CAdES-detached"
    signatureDerBase64 := b64Encode signatureDER
    signerCertPem := certPEM
    chainPem := chainPEM
    signerXmlBase64 := b64Encode xmlBytes
    client := { app := "vocsign", version := "0.1.0", os := osName } }

/-- An arbitrary concrete manifest, used by witnesses. -/
def sampleRequest : SignRequest :=
  { version := "1.0", requestId := "req-1", issuedAt := "2026-01-01T00:00:00Z",
    expiresAt := "2027-01-01T00:00:00Z", nonce := "bm9uY2Utbm9uY2U",
    proposal := { title := "T", promoter := "P", jurisdiction := "J", summary := "S",
                  legalStatement := "L", fullText := { url := "https://x", sha256 := "h" } },
    callback := { url := "https://cb", method := "POST" },
    organizer := { kid := "kid-1", jwkSetUrl := "https://jwks" },
    organizerSignature := some { format := "JWS", value := "e30.YQ.A" },
    policy := none }

/-! ### String helpers (ASCII fragment of Go's strings package; all the
markers and inputs involved here are ASCII). -/

def asciiToLower (c : Char) : Char :=
  if 'A' ≤ c ∧ c ≤ 'Z' then Char.ofNat (c.toNat + 32) else c

def strToLower (s : String) : String := String.mk (s.toList.map asciiToLower)

/-- Substring search over char lists (strings.Contains). -/
def containsSub (pat : List Char) : List Char → Bool
  | [] => pat.isEmpty
  | c :: rest => pat.isPrefixOf (c :: rest) || containsSub pat rest

def strContains (s pat : String) : Bool := containsSub pat.toList s.toList

def isSpaceChar (c : Char) : Bool :=
  c = ' ' || c = '\t' || c = '\n' || c = '\r' || c.toNat = 11 || c.toNat = 12

/-- strings.TrimSpace. -/
def trimSpace (s : String) : String :=
  String.mk (((s.toList.dropWhile isSpaceChar).reverse.dropWhile isSpaceChar).reverse)

/-! ### PKCS#12 decode attempts and error classification
(unnamed part_009 `defaultAttemptSource.Build` / `decodeWithAttempts`,
pkcs12store signer_p11_stub.go error helpers, os_native_unlock.go
`ParsePKCS12` / `verifySigner` / `alternatePasswords`). -/

/-- A Go error value: its message plus whether `errors.Is` matches one of the
go-pkcs12 sentinel password errors (ErrIncorrectPassword / ErrDecryption). -/
structure GoError where
  msg : String
  sentinelPassword : Bool
deriving DecidableEq, Repr

def unknownParseError : GoError := ⟨"unknown parse error", false⟩

def isIncorrectPasswordError (e : GoError) : Bool :=
  e.sentinelPassword
    || strContains (strToLower e.msg) "decryption password incorrect"
    || strContains (strToLower e.msg) "incorrect padding"

def isLikelyInvalidFileError (e : GoError) : Bool :=
  strContains (strToLower e.msg) "not der"
    || strContains (strToLower e.msg) "syntax error"
    || strContains (strToLower e.msg) "trailing data"
    || strContains (strToLower e.msg) "certificate missing"
    || strContains (strToLower e.msg) "private key missing"
    || strContains (strToLower e.msg) "error reading p12 data"

structure DecodeAttempt where
  data : List Nat
  pass : String
deriving DecidableEq, Repr

/-- alternatePasswords: the empty-password fallback, skipped when it equals
the user password. -/
def alternatePasswords (password : String) : List String :=
  if "" = password then [] else [""]

/-- The dedup key used by Build: (sha256 of the bytes, password), Go's
`fmt.Sprintf("%x:%s", sha256.Sum256(payload), pass)`. -/
def attemptKey (a : DecodeAttempt) : List Nat × String := (sha256 a.data, a.pass)

/-- The `add` closure of Build iterated over a list: keep an attempt only if
its key is unseen. Returns the extended seen-set and attempt list. -/
def addAttempts (seen : List (List Nat × String)) (acc : List DecodeAttempt) :
    List DecodeAttempt → List (List Nat × String) × List DecodeAttempt
  | [] => (seen, acc)
  | a :: rest =>
    if attemptKey a ∈ seen then addAttempts seen acc rest
    else addAttempts (attemptKey a :: seen) (acc ++ [a]) rest

/-- Key-based deduplication keeping first occurrences. -/
def dedupByKey (l : List DecodeAttempt) : List DecodeAttempt := (addAttempts [] [] l).2

/-- defaultAttemptSource.Build. `normalizeBER` and `recomputePFXMAC`
(p12_mac.go) are the BER→DER normalizer and the PKCS#12 MAC rewrite; their
byte-level internals are irrelevant here, so they are parameters. A failed
normalization ends the list after the raw attempts; a failed MAC rewrite
skips that attempt, as in the source. -/
def buildAttempts (normalizeBER : List Nat → Option (List Nat))
    (recomputePFXMAC : List Nat → String → Option (List Nat))
    (data : List Nat) (password : String) : List DecodeAttempt :=
  let passwords := password :: alternatePasswords password
  let s1 := addAttempts [] [] (passwords.map fun p => ⟨data, p⟩)
  match normalizeBER data with
  | none => s1.2
  | some normalized =>
    let s2 := addAttempts s1.1 s1.2 (passwords.map fun p => ⟨normalized, p⟩)
    let s3 := addAttempts s2.1 s2.2 (passwords.filterMap fun p =>
      (recomputePFXMAC normalized p).map fun r => ⟨r, p⟩)
    s3.2

/-- A decoded private key; `supportsSigning` models whether the Go type
assertion `priv.(crypto.Signer)` succeeds. -/
structure PrivateKeyM where
  supportsSigning : Bool
  keyId : Nat
deriving DecidableEq, Repr

/-- The result triple of pkcs12.DecodeChain (certificates are opaque ids). -/
structure DecodedChain where
  priv : PrivateKeyM
  cert : Nat
  chain : List Nat
deriving DecidableEq, Repr

inductive ImportError where
  | passwordRequired
  | wrongPassword
  | invalidFile (e : GoError)
  | unsupported (e : GoError)
  | duplicate
  | plain (msg : String)
deriving DecidableEq, Repr

def ImportError.isUnsupportedKind : ImportError → Bool
  | .unsupported _ => true
  | _ => false

/-- The attempt loop of decodeWithAttempts with its three accumulators
(hasIncorrectPassword, firstNonPasswordErr, lastErr). -/
def decodeLoop (decode : List Nat → String → Except GoError DecodedChain)
    (userPassword : String) :
    List DecodeAttempt → Bool → Option GoError → Option GoError →
    Except ImportError DecodedChain
  | [], hasIncorrectPassword, firstNonPasswordErr, lastErr =>
    if hasIncorrectPassword && firstNonPasswordErr.isNone then
      if trimSpace userPassword = "" then .error .passwordRequired
      else .error .wrongPassword
    else
      match firstNonPasswordErr with
      | some e =>
        if isLikelyInvalidFileError e then .error (.invalidFile e)
        else .error (.unsupported e)
      | none => .error (.unsupported (lastErr.getD unknownParseError))
  | a :: rest, hasIncorrectPassword, firstNonPasswordErr, _lastErr =>
    match decode a.data a.pass with
    | .ok r => .ok r
    | .error e =>
      decodeLoop decode userPassword rest
        (hasIncorrectPassword || isIncorrectPasswordError e)
        (if isIncorrectPasswordError e then firstNonPasswordErr
         else firstNonPasswordErr <|> some e)
        (some e)

def decodeWithAttempts (decode : List Nat → String → Except GoError DecodedChain)
    (attempts : List DecodeAttempt) (userPassword : String) :
    Except ImportError DecodedChain :=
  decodeLoop decode userPassword attempts false none none

/-- verifySigner: the decoded key must expose signing, otherwise a plain
(unclassified) error is returned. -/
def verifySigner (r : DecodedChain) : Except ImportError DecodedChain :=
  if r.priv.supportsSigning then .ok r
  else .error (.plain "parsed private key does not support signing")

/-- ParsePKCS12: build the attempt list, decode, then validate the signer. -/
def ParsePKCS12 (decode : List Nat → String → Except GoError DecodedChain)
    (normalizeBER : List Nat → Option (List Nat))
    (recomputePFXMAC : List Nat → String → Option (List Nat))
    (data : List Nat) (password : String) : Except ImportError DecodedChain :=
  match decodeWithAttempts decode (buildAttempts normalizeBER recomputePFXMAC data password)
      password with
  | .error e => .error e
  | .ok r => verifySigner r

/-- First successful decode over the attempt list. -/
def firstSuccess (decode : List Nat → String → Except GoError DecodedChain) :
    List DecodeAttempt → Option DecodedChain
  | [] => none
  | a :: rest =>
    match decode a.data a.pass with
    | .ok r => some r
    | .error _ => firstSuccess decode rest

/-- The errors produced by the failing attempts, in order. -/
def attemptErrors (decode : List Nat → String → Except GoError DecodedChain) :
    List DecodeAttempt → List GoError
  | [] => []
  | a :: rest =>
    match decode a.data a.pass with
    | .ok _ => attemptErrors decode rest
    | .error e => e :: attemptErrors decode rest

/-- Classification of an exhausted attempt run, phrased from the spec: if at
least one failure occurred and every failure is a password/decryption error,
the outcome depends on whether the user password is empty after trimming
whitespace; otherwise the first non-password failure picks InvalidFile (for
structural markers) or Unsupported. -/
def classifyFailures (errs : List GoError) (userPassword : String) : ImportError :=
  if !errs.isEmpty && errs.all isIncorrectPasswordError then
    if trimSpace userPassword = "" then .passwordRequired else .wrongPassword
  else
    match errs.find? (fun e => !isIncorrectPasswordError e) with
    | some e =>
      if isLikelyInvalidFileError e then .invalidFile e else .unsupported e
    | none => .unsupported (errs.getLast?.getD unknownParseError)

/-- Concrete decode functions for witnesses and counterexamples. -/
def decodeSyntaxError : List Nat → String → Except GoError DecodedChain :=
  fun _ _ => .error ⟨"asn1: syntax error: truncated tag or length", false⟩

def decodeNonSigner : List Nat → String → Except GoError DecodedChain :=
  fun _ _ => .ok ⟨⟨false, 0⟩, 1, []⟩

def decodePwErr : List Nat → String → Except GoError DecodedChain :=
  fun _ _ => .error ⟨"pkcs12: decryption password incorrect", true⟩

def noNormalize : List Nat → Option (List Nat) := fun _ => none

def noMac : List Nat → String → Option (List Nat) := fun _ _ => none

def normPlus : List Nat → Option (List Nat) := fun d => some (d ++ [0])

def macPlus : List Nat → String → Option (List Nat) := fun d p => some (d ++ [p.length])

/-! ### JWS(ES256) manifest verification (unnamed part_012, package jwsverify,
with the EC JWK parser of unnamed part_011). External effects (JWKS fetch,
JSON header unmarshal, P-256 curve membership, ECDSA verification, and the
canonical encoding of the Go struct) are oracle functions in `JwsEnv`;
everything else — field checks, key selection, base64url decoding, payload
comparison, signature shape — is executable. -/

structure JWK where
  kid : String
  kty : String
  alg : String
  use : String
  crv : String
  x : String
  y : String
deriving DecidableEq, Repr

structure JWKS where
  keys : List JWK
deriving DecidableEq, Repr

/-- The crypto.PublicKey returned by JWK.ToPublicKey as seen by Verify's type
assertion: an *ecdsa.PublicKey or some other key type. -/
inductive ParsedKey where
  | ec (x y : Nat)
  | nonEC
deriving DecidableEq, Repr

structure JwsEnv where
  fetchJWKS : String → Except String JWKS
  isOnCurveP256 : Nat → Nat → Bool
  parseHeaderAlg : List Nat → Except String (Option String)
  canonEncode : SignRequest → Except String (List Nat)
  ecdsaVerify : Nat → Nat → List Nat → Nat → Nat → Bool

/-- big.Int SetBytes: big-endian bytes to an unsigned integer. -/
def bytesBE (l : List Nat) : Nat := l.foldl (fun acc b => acc * 256 + b) 0

def strBytes (s : String) : List Nat := s.toList.map Char.toNat

/-- JWK.ToPublicKey (EC variant): kty must be EC, crv must be P-256, the
coordinates are raw-URL base64, and the point must lie on the curve. -/
def JWK.toPublicKey (env : JwsEnv) (jwk : JWK) : Except String ParsedKey :=
  if jwk.kty ≠ "EC" then .error ("unsupported key type: " ++ jwk.kty)
  else if jwk.crv ≠ "P-256" then .error ("unsupported curve: " ++ jwk.crv)
  else
    match b64UrlDecode (strBytes jwk.x) with
    | none => .error "invalid x coordinate"
    | some xB =>
      match b64UrlDecode (strBytes jwk.y) with
      | none => .error "invalid y coordinate"
      | some yB =>
        if env.isOnCurveP256 (bytesBE xB) (bytesBE yB) then
          .ok (.ec (bytesBE xB) (bytesBE yB))
        else .error "invalid EC point"

/-- strings.Split on a single separator character. -/
def splitCharAux (c : Char) : List Char → List Char → List String
  | [], cur => [String.mk cur.reverse]
  | x :: rest, cur =>
    if x = c then String.mk cur.reverse :: splitCharAux c rest []
    else splitCharAux c rest (x :: cur)

def splitOnChar (c : Char) (s : String) : List String := splitCharAux c s.toList []

inductive VerifyError where
  | nilRequest
  | missingSignature
  | missingSignatureValue
  | missingJwkSetUrl
  | missingKid
  | fetchFailed (e : String)
  | invalidKey (e : String)
  | unsupportedKeyType
  | keyNotFound
  | canonFailed (e : String)
  | invalidJwsFormat
  | invalidHeaderEncoding
  | invalidHeaderJson (e : String)
  | unsupportedAlgorithm
  | invalidPayloadEncoding
  | payloadMismatch
  | invalidSignatureEncoding
  | invalidSignatureLength (n : Nat)
  | signatureVerificationFailed
deriving DecidableEq, Repr

/-- jwsverify.Verify: nil/field guards, JWKS fetch, kid selection, key parse,
canonical re-encoding of the request without organizerSignature, JWS split,
header alg check, payload byte-for-byte comparison, 64-byte (r, s) split and
ECDSAverification over SHA-256(headerB64 ∥ "." ∥ payloadB64). -/
def Verify (env : JwsEnv) (req : Option SignRequest) : Except VerifyError Unit :=
  match req with
  | none => .error .nilRequest
  | some req =>
    match req.organizerSignature with
    | none => .error .missingSignature
    | some sig =>
      if sig.value = "" then .error .missingSignatureValue
      else if req.organizer.jwkSetUrl = "" then .error .missingJwkSetUrl
      else if req.organizer.kid = "" then .error .missingKid
      else
        match env.fetchJWKS req.organizer.jwkSetUrl with
        | .error e => .error (.fetchFailed e)
        | .ok jwks =>
          match jwks.keys.find? (fun k => k.kid = req.organizer.kid) with
          | none => .error .keyNotFound
          | some key =>
            match key.toPublicKey env with
            | .error e => .error (.invalidKey e)
            | .ok .nonEC => .error .unsupportedKeyType
            | .ok (.ec px py) =>
              match env.canonEncode { req with organizerSignature := none } with
              | .error e => .error (.canonFailed e)
              | .ok canonicalBytes =>
                match splitOnChar '.' sig.value with
                | [headerB64, payloadB64, signatureB64] =>
                  match b64UrlDecode (strBytes headerB64) with
                  | none => .error .invalidHeaderEncoding
                  | some headerBytes =>
                    match env.parseHeaderAlg headerBytes with
                    | .error e => .error (.invalidHeaderJson e)
                    | .ok algOpt =>
                      if algOpt ≠ some "ES256" then .error .unsupportedAlgorithm
                      else
                        match b64UrlDecode (strBytes payloadB64) with
                        | none => .error .invalidPayloadEncoding
                        | some payloadBytes =>
                          if payloadBytes ≠ canonicalBytes then .error .payloadMismatch
                          else
                            match b64UrlDecode (strBytes signatureB64) with
                            | none => .error .invalidSignatureEncoding
                            | some signatureBytes =>
                              if signatureBytes.length ≠ 64 then
                                .error (.invalidSignatureLength signatureBytes.length)
                              else
                                if env.ecdsaVerify px py
                                    (sha256 (strBytes (headerB64 ++ "." ++ payloadB64)))
                                    (bytesBE (signatureBytes.take 32))
                                    (bytesBE (signatureBytes.drop 32)) then .ok ()
                                else .error .signatureVerificationFailed
                | _ => .error .invalidJwsFormat

/-- A concrete JWK whose coordinates decode ("YQ" is base64url for byte 97),
used by witnesses. -/
def sampleJwk : JWK :=
  { kid := "kid-1", kty := "EC", alg := "", use := "", crv := "P-256", x := "YQ", y := "YQ" }

/-- A concrete oracle environment: the JWKS contains `sampleJwk`, the header
parses to alg ES256, and the canonical encoding of any request is the byte
[98] — which differs from the sample JWS payload "YQ" = [97]. -/
def sampleEnv : JwsEnv :=
  { fetchJWKS := fun _ => .ok ⟨[sampleJwk]⟩
    isOnCurveP256 := fun _ _ => true
    parseHeaderAlg := fun _ => .ok (some "ES256")
    canonEncode := fun _ => .ok [98]
    ecdsaVerify := fun _ _ _ _ _ => true }

/-! ### CAdES signed attributes (internal/crypto/cades/sign.go and the ASN.1
structures of unnamed part_014). The CMS assembly itself is the external
smallstep/pkcs7 library; what the repository contributes — and what is
modelled — is the extra signed-attribute list SignDetached hands to it. -/

def OidSigningCertificateV2 : List Int := [1, 2, 840, 113549, 1, 9, 16, 2, 47]

def OidSHA256 : List Int := [2, 16, 840, 1, 101, 3, 4, 2, 1]

def OidSignaturePolicyIdentifier : List Int := [1, 2, 840, 113549, 1, 9, 16, 2, 15]

def OidSignaturePolicyQualifierCPS : List Int := [1, 2, 840, 113549, 1, 9, 16, 5, 1]

/-- An asn1.RawValue used as AlgorithmIdentifier parameters; the code only
ever produces the explicit NULL (asn1.RawValue{Tag: asn1.TagNull}). -/
inductive RawParam where
  | nullValue
deriving DecidableEq, Repr

structure AlgorithmIdentifierM where
  algorithm : List Int
  parameters : Option RawParam
deriving DecidableEq, Repr

structure IssuerSerialM where
  issuer : List Nat
  serial : List Nat
deriving DecidableEq, Repr

/-- ESSCertIDv2; `issuerSerial = none` models the Go zero value of the
`asn1:"optional"` field, which asn1.Marshal omits from the DER. -/
structure ESSCertIDv2M where
  hashAlgorithm : AlgorithmIdentifierM
  certHash : List Nat
  issuerSerial : Option IssuerSerialM
deriving DecidableEq, Repr

structure SigningCertificateV2M where
  certs : List ESSCertIDv2M
  policies : List Nat
deriving DecidableEq, Repr

structure SigPolicyHashM where
  hashAlgorithm : AlgorithmIdentifierM
  hashValue : List Nat
deriving DecidableEq, Repr

/-- A policy qualifier; the qualifier value is the URI as an IA5String
(asn1.RawValue{Tag: asn1.TagIA5String, Bytes: uri}). -/
structure SigPolicyQualifierM where
  sigPolicyQualifierID : List Int
  qualifierIA5 : String
deriving DecidableEq, Repr

structure SignaturePolicyIdentifierM where
  sigPolicyID : List Int
  sigPolicyHash : SigPolicyHashM
  sigPolicyQualifiers : List SigPolicyQualifierM
deriving DecidableEq, Repr

inductive AttrValue where
  | signingCert (v : SigningCertificateV2M)
  | sigPolicy (v : SignaturePolicyIdentifierM)
deriving DecidableEq, Repr

structure Pkcs7Attribute where
  type : List Int
  value : AttrValue
deriving DecidableEq, Repr

def digitsValAux : List Char → Nat → Option Nat
  | [], acc => some acc
  | c :: rest, acc =>
    if '0' ≤ c ∧ c ≤ '9' then digitsValAux rest (acc * 10 + (c.toNat - 48)) else none

def digitsVal (l : List Char) : Option Nat :=
  if l.isEmpty then none else digitsValAux l 0

/-- strconv.Atoi on a 64-bit platform: optional sign then decimal digits,
with the range error for values outside the signed 64-bit integers. -/
def atoi (s : String) : Option Int :=
  match s.toList with
  | [] => none
  | '+' :: rest => (digitsVal rest).bind (fun n =>
      if n ≤ 9223372036854775807 then some (Int.ofNat n) else none)
  | '-' :: rest => (digitsVal rest).bind (fun n =>
      if n ≤ 9223372036854775808 then some (-(n : Int)) else none)
  | l => (digitsVal l).bind (fun n =>
      if n ≤ 9223372036854775807 then some (Int.ofNat n) else none)

/-- cades.parseOID: split on "." and Atoi every part; any failure fails. -/
def parseOID (s : String) : Option (List Int) :=
  (splitOnChar '.' s).mapM atoi

/-- encoding/asn1 marshals an OBJECT IDENTIFIER only when it is structurally
valid: at least two arcs, a first arc of at most 2, and, when the first arc
is below 2, a second arc below 40 (makeObjectIdentifier's guard). A policy
identifier failing it makes asn1.Marshal error and sign.go silently skips
the attribute. -/
def oidMarshalOk : List Int → Bool
  | a :: b :: _ => if 2 < a then false else if a < 2 ∧ 40 ≤ b then false else true
  | _ => false

/-- The extra signed attributes SignDetached builds, in order: always a
signingCertificateV2 with a single ESSCertIDv2 (SHA-256 with explicit NULL
parameters, certHash = SHA-256 of the end-entity DER, issuerSerial zero and
hence omitted); then, only when a policy with a non-empty, parseable dotted
OID that asn1.Marshal accepts is supplied, a signaturePolicyIdentifier
(parse failures and the asn1.Marshal error of sign.go lines 102-108 are
silently skipped by the source). -/
def signDetachedAttrs (certRaw : List Nat) (policy : Option SignPolicy) :
    List Pkcs7Attribute :=
  let essCertV2 : ESSCertIDv2M :=
    { hashAlgorithm := { algorithm := OidSHA256, parameters := some .nullValue }
      certHash := sha256 certRaw
      issuerSerial := none }
  let base : List Pkcs7Attribute :=
    [{ type := OidSigningCertificateV2
       value := .signingCert { certs := [essCertV2], policies := [] } }]
  match policy with
  | none => base
  | some p =>
    if p.oid ≠ "" then
      match parseOID p.oid with
      | some policyOID =>
        if oidMarshalOk policyOID then
          base ++
            [{ type := OidSignaturePolicyIdentifier
               value := .sigPolicy
                 { sigPolicyID := policyOID
                   sigPolicyHash :=
                     { hashAlgorithm := { algorithm := OidSHA256, parameters := some .nullValue }
                       hashValue := b64DecodePartial (strBytes p.hash) }
                   sigPolicyQualifiers :=
                     if p.uri ≠ "" then
                       [{ sigPolicyQualifierID := OidSignaturePolicyQualifierCPS
                          qualifierIA5 := p.uri }]
                     else [] } }]
        else base
      | none => base
    else base

/-- A supplied policy whose optional OID field is absent (empty). -/
def emptyOidPolicy : SignPolicy :=
  { mode := "explicit", oid := "", hashAlg := "", hash := "", uri := "" }

/-! ### Spanish identity extraction (unnamed part_009, package certs).
Strings are code-point lists; per the spec's open question, case folding is
ASCII-only. The fixed regular expressions reDNI, reNIE, reCIF, reID and
reRep are implemented as leftmost scanning matchers with Go's \b word
boundaries (word = [0-9A-Za-z_]) and \s = [\t\n\f\r ]. -/

def isSpaceN (c : Nat) : Bool :=
  c = 32 || c = 9 || c = 10 || c = 13 || c = 11 || c = 12

/-- Go regexp \s class (no vertical tab). -/
def isRegexSpace (c : Nat) : Bool :=
  c = 32 || c = 9 || c = 10 || c = 12 || c = 13

def isDigitN (c : Nat) : Bool := 48 ≤ c && c ≤ 57
def isUpperN (c : Nat) : Bool := 65 ≤ c && c ≤ 90
def isWordN (c : Nat) : Bool :=
  isDigitN c || isUpperN c || (97 ≤ c && c ≤ 122) || c = 95

def boundaryBefore : Option Nat → Bool
  | none => true
  | some p => !isWordN p

def boundaryAfter : List Nat → Bool
  | [] => true
  | c :: _ => !isWordN c

def toUpperA (l : List Nat) : List Nat :=
  l.map (fun c => if 97 ≤ c && c ≤ 122 then c - 32 else c)

def trimSpaceN (l : List Nat) : List Nat :=
  ((l.dropWhile isSpaceN).reverse.dropWhile isSpaceN).reverse

/-- strings.Fields. -/
def fieldsAux : List Nat → List Nat → List (List Nat)
  | [], cur => if cur.isEmpty then [] else [cur.reverse]
  | c :: rest, cur =>
    if isSpaceN c then
      if cur.isEmpty then fieldsAux rest [] else cur.reverse :: fieldsAux rest []
    else fieldsAux rest (c :: cur)

def fieldsN (l : List Nat) : List (List Nat) := fieldsAux l []

def joinSpace : List (List Nat) → List Nat
  | [] => []
  | [x] => x
  | x :: rest => x ++ 32 :: joinSpace rest

/-- normalizeSpace: Join(Fields(TrimSpace(s)), " "). -/
def normalizeSpaceN (l : List Nat) : List Nat := joinSpace (fieldsN (trimSpaceN l))

/-- splitWords. -/
def splitWordsN (s : List Nat) : List (List Nat) :=
  let s' := normalizeSpaceN s
  if s'.isEmpty then [] else fieldsN s'

def trimPrefixN (l pre : List Nat) : List Nat :=
  if pre.isPrefixOf l then l.drop pre.length else l

/-- Substring containment on code-point lists (strings.Contains). -/
def containsSubN (pat : List Nat) : List Nat → Bool
  | [] => pat.isEmpty
  | c :: rest => pat.isPrefixOf (c :: rest) || containsSubN pat rest

/-- strings.Index: first index of a substring. -/
def indexOfSub (pat : List Nat) : List Nat → Option Nat
  | [] => if pat.isEmpty then some 0 else none
  | c :: rest =>
    if pat.isPrefixOf (c :: rest) then some 0 else (indexOfSub pat rest).map (· + 1)

/-- Leftmost scan of a position matcher that sees the previous character
(for word boundaries). -/
def scanB {α : Type} (f : Option Nat → List Nat → Option α) :
    Option Nat → List Nat → Option α :=
  fun prev l =>
    match f prev l with
    | some r => some r
    | none =>
      match l with
      | [] => none
      | c :: rest => scanB f (some c) rest

/-- reDNI = \b\d{8}[A-Z]\b at one position. -/
def dniAt (prev : Option Nat) (l : List Nat) : Option (List Nat) :=
  if boundaryBefore prev then
    let ds := l.take 8
    if ds.length = 8 && ds.all isDigitN then
      match l.drop 8 with
      | u :: rest => if isUpperN u && boundaryAfter rest then some (ds ++ [u]) else none
      | [] => none
    else none
  else none

def dniFind (s : List Nat) : Option (List Nat) := scanB dniAt none s

/-- reNIE = \b[XYZ]\d{7}[A-Z]\b at one position. -/
def nieAt (prev : Option Nat) (l : List Nat) : Option (List Nat) :=
  if boundaryBefore prev then
    match l with
    | c :: rest =>
      if c = 88 || c = 89 || c = 90 then
        let ds := rest.take 7
        if ds.length = 7 && ds.all isDigitN then
          match rest.drop 7 with
          | u :: rest2 =>
            if isUpperN u && boundaryAfter rest2 then some (c :: ds ++ [u]) else none
          | [] => none
        else none
      else none
    | [] => none
  else none

def nieFind (s : List Nat) : Option (List Nat) := scanB nieAt none s

/-- The CIF leading class [ABCDEFGHJNPQRSUVW]. -/
def isCifLead (c : Nat) : Bool :=
  (65 ≤ c && c ≤ 72) || c = 74 || c = 78 || c = 80 || c = 81 || c = 82 || c = 83 ||
    c = 85 || c = 86 || c = 87

/-- The CIF trailing class [0-9A-J]. -/
def isCifTail (c : Nat) : Bool := isDigitN c || (65 ≤ c && c ≤ 74)

/-- reCIF = \b[ABCDEFGHJNPQRSUVW]\d{7}[0-9A-J]\b at one position. -/
def cifAt (prev : Option Nat) (l : List Nat) : Option (List Nat) :=
  if boundaryBefore prev then
    match l with
    | c :: rest =>
      if isCifLead c then
        let ds := rest.take 7
        if ds.length = 7 && ds.all isDigitN then
          match rest.drop 7 with
          | u :: rest2 =>
            if isCifTail u && boundaryAfter rest2 then some (c :: ds ++ [u]) else none
          | [] => none
        else none
      else none
    | [] => none
  else none

def cifFind (s : List Nat) : Option (List Nat) := scanB cifAt none s

/-- reID = \b(DNI|NIE)\s*[:\-]?\s*([A-Z0-9]{8,9})\b capture at one position
(the input is already upper-cased by extractID, making (?i) moot). The
{8,9} repetition with the trailing \b forces the run of [A-Z0-9] characters
to be exactly 8 or 9 long and followed by a non-word character. -/
def idCapAt (prev : Option Nat) (l : List Nat) : Option (List Nat) :=
  if boundaryBefore prev then
    match
      (if [68, 78, 73].isPrefixOf l then some (l.drop 3)
       else if [78, 73, 69].isPrefixOf l then some (l.drop 3)
       else none) with
    | none => none
    | some afterKw =>
      let r1 := afterKw.dropWhile isRegexSpace
      let r2 := match r1 with
        | c :: rest => if c = 58 || c = 45 then rest else r1
        | [] => r1
      let r3 := r2.dropWhile isRegexSpace
      let run := r3.takeWhile (fun c => isDigitN c || isUpperN c)
      if (run.length = 8 || run.length = 9) && boundaryAfter (r3.drop run.length) then
        some run
      else none
  else none

def idFind (s : List Nat) : Option (List Nat) := scanB idCapAt none s

/-- reRep = \(\s*R:\s*([A-Z]\d{7}[0-9A-J])\s*\) capture at one position. -/
def repAt (_prev : Option Nat) (l : List Nat) : Option (List Nat) :=
  match l with
  | 40 :: rest =>
    let r1 := rest.dropWhile isRegexSpace
    if [82, 58].isPrefixOf r1 then
      let r2 := (r1.drop 2).dropWhile isRegexSpace
      match r2 with
      | u :: r3 =>
        if isUpperN u then
          let ds := r3.take 7
          if ds.length = 7 && ds.all isDigitN then
            match r3.drop 7 with
            | t :: r4 =>
              if isCifTail t then
                match r4.dropWhile isRegexSpace with
                | 41 :: _ => some (u :: ds ++ [t])
                | _ => none
              else none
            | [] => none
          else none
        else none
      | [] => none
    else none
  | _ => none

def repFind (s : List Nat) : Option (List Nat) := scanB repAt none s

/-- certs.extractID. -/
def extractID (s : List Nat) : List Nat :=
  let v := toUpperA (normalizeSpaceN s)
  let v := trimPrefixN v (strBytes "IDCES-")
  let v := trimPrefixN v (strBytes "IDESP-")
  let v := match idFind v with
    | some g => g
    | none => v
  match dniFind v with
  | some m => m
  | none =>
    match nieFind v with
    | some m => m
    | none =>
      match cifFind v with
      | some m => m
      | none => []

def isPersonalID (id : List Nat) : Bool := (dniFind id).isSome || (nieFind id).isSome

def looksRepresentativeCN (cn : List Nat) : Bool :=
  let cnU := toUpperA cn
  containsSubN (strBytes "REPRESENT") cnU || containsSubN (strBytes "APODERAD") cnU ||
    containsSubN (strBytes "(R:") cnU

def looksRepresentativeIssuer (issuerCN : List Nat) : Bool :=
  containsSubN (strBytes "REPRESENT") (toUpperA (normalizeSpaceN issuerCN))

def extractRepresentativeID (s : List Nat) : List Nat :=
  match repFind (toUpperA s) with
  | some m => m
  | none => []

def extractOrgID (s : List Nat) : List Nat :=
  let v := trimPrefixN (toUpperA (normalizeSpaceN s)) (strBytes "VATES-")
  match cifFind v with
  | some m => m
  | none => v

def oidGivenName : List Nat := [2, 5, 4, 42]
def oidSurname : List Nat := [2, 5, 4, 4]
def oidSerialNumber : List Nat := [2, 5, 4, 5]
def oidOrganization : List Nat := [2, 5, 4, 10]
def oidDescription : List Nat := [2, 5, 4, 13]
def oidOrganizationIdentifier : List Nat := [2, 5, 4, 97]

/-- A pkix.AttributeTypeAndValue; the extractor only looks at string-typed
values (the Go type assertion `name.Value.(string)`). -/
inductive AttrVal where
  | str (v : List Nat)
  | nonString
deriving DecidableEq, Repr

structure SubjectAttr where
  typ : List Nat
  val : AttrVal
deriving DecidableEq, Repr

structure CertModel where
  subjectNames : List SubjectAttr
  subjectCN : List Nat
  subjectRaw : List Nat
  issuerCN : List Nat
  notAfterFmt : List Nat
deriving DecidableEq, Repr

structure ExtractedInfoM where
  nom : List Nat
  cognoms : List (List Nat)
  dni : List Nat
  organization : List Nat
  organizationID : List Nat
  isRepresentative : Bool
  rawSubject : List Nat
  issuer : List Nat
  validUntil : List Nat
deriving DecidableEq, Repr

structure ExtractState where
  info : ExtractedInfoM
  hasPersonalAttrs : Bool
  hasSubjectOrg : Bool
  hasSubjectOrgID : Bool
  hasRepDescription : Bool
deriving DecidableEq, Repr

/-- One iteration of the subject-name loop of ExtractSpanishIdentity. -/
def processName (st : ExtractState) (name : SubjectAttr) : ExtractState :=
  match name.val with
  | .nonString => st
  | .str raw =>
    let val := trimSpaceN raw
    if name.typ = oidGivenName then
      { st with
        info := { st.info with nom := val }
        hasPersonalAttrs := st.hasPersonalAttrs || !val.isEmpty }
    else if name.typ = oidSurname then
      { st with
        info := { st.info with cognoms := splitWordsN val }
        hasPersonalAttrs := st.hasPersonalAttrs || !(splitWordsN val).isEmpty }
    else if name.typ = oidSerialNumber then
      if !(extractID val).isEmpty then
        { st with
          info := { st.info with dni := extractID val }
          hasPersonalAttrs := st.hasPersonalAttrs || isPersonalID (extractID val) }
      else st
    else if name.typ = oidOrganization then
      { st with
        info := { st.info with organization := normalizeSpaceN val }
        hasSubjectOrg := !(normalizeSpaceN val).isEmpty }
    else if name.typ = oidOrganizationIdentifier then
      { st with
        info := { st.info with organizationID := extractOrgID val }
        hasSubjectOrgID := !(extractOrgID val).isEmpty }
    else if name.typ = oidDescription then
      if containsSubN (strBytes "REG:") (toUpperA (normalizeSpaceN val)) ||
          containsSubN (strBytes "REF:AEAT") (toUpperA (normalizeSpaceN val)) ||
          containsSubN (strBytes "INSCRIPCI") (toUpperA (normalizeSpaceN val)) then
        { st with hasRepDescription := true }
      else st
    else st

/-- The CN name fallback of ExtractSpanishIdentity (lines guarded by
`info.Nom == "" || len(info.Cognoms) == 0`): cut the CN at " - " or at
" DNI " and use its words to fill given name and surnames. -/
def cnNamePart (cn : List Nat) : List Nat :=
  let namePart := cn
  let namePart := match indexOfSub (strBytes " - ") namePart with
    | some idx => namePart.take idx
    | none => namePart
  let namePart := match indexOfSub (strBytes " DNI ") (toUpperA namePart) with
    | some idx => namePart.take idx
    | none => namePart
  normalizeSpaceN namePart

def applyCNNameFallback (info : ExtractedInfoM) (cn : List Nat) : ExtractedInfoM :=
  if info.nom.isEmpty || info.cognoms.isEmpty then
    if !(cnNamePart cn).isEmpty then
      let parts := splitWordsN (cnNamePart cn)
      let info := if info.nom.isEmpty && !parts.isEmpty then
          { info with nom := parts.headD [] } else info
      let info := if info.cognoms.isEmpty && parts.length ≥ 2 then
          { info with cognoms := parts.tail } else info
      info
    else info
  else info

/-- certs.ExtractSpanishIdentity: the subject-name loop, the CN fallbacks,
the representative classification, and the clearing of organization fields
on personal certificates. -/
def ExtractSpanishIdentity (cert : CertModel) : ExtractedInfoM :=
  let init : ExtractState :=
    { info := { nom := [], cognoms := [], dni := [], organization := [],
                organizationID := [], isRepresentative := false,
                rawSubject := cert.subjectRaw, issuer := cert.issuerCN,
                validUntil := cert.notAfterFmt },
      hasPersonalAttrs := false, hasSubjectOrg := false, hasSubjectOrgID := false,
      hasRepDescription := false }
  let st := cert.subjectNames.foldl processName init
  let cn := normalizeSpaceN cert.subjectCN
  let info := st.info
  let info := if info.organizationID.isEmpty then
      { info with organizationID := extractRepresentativeID cn } else info
  let info := if info.dni.isEmpty then { info with dni := extractID cn } else info
  let info := applyCNNameFallback info cn
  let hasPersonalIdentity := st.hasPersonalAttrs || isPersonalID info.dni
  let hasRepCN := looksRepresentativeCN cn || !(extractRepresentativeID cn).isEmpty
  let issuerRep := looksRepresentativeIssuer cert.issuerCN
  let isRep := st.hasSubjectOrgID || hasRepCN || (st.hasSubjectOrg && issuerRep) ||
    st.hasRepDescription || (!hasPersonalIdentity && st.hasSubjectOrg)
  let info := { info with isRepresentative := isRep }
  if !isRep && hasPersonalIdentity then
    { info with organization := [], organizationID := [] }
  else info

/-! Specification-side predicates for the amended representative rule, each
defined independently of the loop. -/

def attrString (a : SubjectAttr) : Option (List Nat) :=
  match a.val with
  | .str v => some (trimSpaceN v)
  | .nonString => none

/-- The (trimmed) value an attribute of the given OID contributes, if any. -/
def attrUpd (oid : List Nat) (a : SubjectAttr) : Option (List Nat) :=
  if a.typ = oid then attrString a else none

/-- The value of the last string-valued attribute of a given OID (each
occurrence overwrites the previous one in the loop). -/
def lastAttrVal (oid : List Nat) : List SubjectAttr → Option (List Nat)
  | [] => none
  | a :: rest => (lastAttrVal oid rest) <|> attrUpd oid a

def subjectOrgIDPresent (names : List SubjectAttr) : Bool :=
  match lastAttrVal oidOrganizationIdentifier names with
  | some v => !(extractOrgID v).isEmpty
  | none => false

def subjectOrgPresent (names : List SubjectAttr) : Bool :=
  match lastAttrVal oidOrganization names with
  | some v => !(normalizeSpaceN v).isEmpty
  | none => false

/-- Whether one attribute is a personal-holder marker: a non-empty given
name, a surname with words, or a serial number carrying a personal DNI/NIE. -/
def pPersonal (a : SubjectAttr) : Bool :=
  match attrString a with
  | none => false
  | some v =>
    (a.typ = oidGivenName && !v.isEmpty) ||
    (a.typ = oidSurname && !(splitWordsN v).isEmpty) ||
    (a.typ = oidSerialNumber && !(extractID v).isEmpty && isPersonalID (extractID v))

def anyPersonalAttr (names : List SubjectAttr) : Bool := names.any pPersonal

/-- Whether one attribute is a representative description marker. -/
def pDesc (a : SubjectAttr) : Bool :=
  match attrString a with
  | none => false
  | some v =>
    a.typ = oidDescription &&
      (containsSubN (strBytes "REG:") (toUpperA (normalizeSpaceN v)) ||
       containsSubN (strBytes "REF:AEAT") (toUpperA (normalizeSpaceN v)) ||
       containsSubN (strBytes "INSCRIPCI") (toUpperA (normalizeSpaceN v)))

def anyRepDescription (names : List SubjectAttr) : Bool := names.any pDesc

/-- The id a serial-number attribute contributes to the DNI field, if any. -/
def serialUpd (a : SubjectAttr) : Option (List Nat) :=
  match attrString a with
  | some v =>
    if a.typ = oidSerialNumber && !(extractID v).isEmpty then some (extractID v)
    else none
  | none => none

/-- The DNI value the loop leaves behind: the last serial-number attribute
whose extractID is non-empty. -/
def lastSerialID : List SubjectAttr → Option (List Nat)
  | [] => none
  | a :: rest => (lastSerialID rest) <|> serialUpd a

def specDNI (cert : CertModel) : List Nat :=
  match lastSerialID cert.subjectNames with
  | some id => id
  | none => extractID (normalizeSpaceN cert.subjectCN)

def specPersonalIdentity (cert : CertModel) : Bool :=
  anyPersonalAttr cert.subjectNames || isPersonalID (specDNI cert)

/-- The amended representative condition: subject organization-identifier
present (last one non-empty); or CN matches REPRESENT/APODERAD/"(R:" or
contains an "(R: CIF)" group; or the subject carries an organization AND the
issuer CN matches REPRESENT; or a description matches REG:/REF:AEAT/
INSCRIPCI; or the subject carries an organization and no personal-holder
identity at all. -/
def specRepresentative (cert : CertModel) : Bool :=
  let cn := normalizeSpaceN cert.subjectCN
  subjectOrgIDPresent cert.subjectNames ||
  (looksRepresentativeCN cn || !(extractRepresentativeID cn).isEmpty) ||
  (subjectOrgPresent cert.subjectNames && looksRepresentativeIssuer cert.issuerCN) ||
  anyRepDescription cert.subjectNames ||
  (!specPersonalIdentity cert && subjectOrgPresent cert.subjectNames)

/-- The counterexample certificate: personal attributes, no subject
organization data, and an issuer CN matching REPRESENT. -/
def cexIssuerRepCert : CertModel :=
  { subjectNames := [⟨oidGivenName, .str (strBytes "PAU")⟩,
                     ⟨oidSurname, .str (strBytes "GARCIA")⟩,
                     ⟨oidSerialNumber, .str (strBytes "IDCES-47824166J")⟩],
    subjectCN := strBytes "PAU GARCIA",
    subjectRaw := [], issuerCN := strBytes "AC REPRESENTANTES", notAfterFmt := [] }

/-- The representative certificate of the package's own tests. -/
def repTestCert : CertModel :=
  { subjectNames := [⟨oidSerialNumber, .str (strBytes "IDCES-47824166J")⟩,
                     ⟨oidGivenName, .str (strBytes "PAU")⟩,
                     ⟨oidSurname, .str (strBytes "ESCRICH GARCIA")⟩,
                     ⟨oidOrganizationIdentifier, .str (strBytes "VATES-B75576322")⟩,
                     ⟨oidOrganization, .str (strBytes "SYNERGIZE S.L.")⟩],
    subjectCN := strBytes "47824166J PAU ESCRICH (R: B75576322)",
    subjectRaw := [], issuerCN := strBytes "AC REPRESENTACION", notAfterFmt := [] }

/-- The classification a decodeLoop run reaches from intermediate accumulator
values once the remaining attempts produce the error list `errs`. -/
def classifyAux (pw : String) (errs : List GoError) (h : Bool) (f l : Option GoError) :
    Except ImportError DecodedChain :=
  let h' := h || errs.any isIncorrectPasswordError
  let f' := f <|> errs.find? (fun e => !isIncorrectPasswordError e)
  let l' := errs.getLast? <|> l
  if h' && f'.isNone then
    if trimSpace pw = "" then .error .passwordRequired else .error .wrongPassword
  else
    match f' with
    | some e =>
      if isLikelyInvalidFileError e then .error (.invalidFile e)
      else .error (.unsupported e)
    | none => .error (.unsupported (l'.getD unknownParseError))

/-! JSON values as Go encoding/json sees them: objects carry their fields in
the order the caller supplied; Go's Marshal sorts map keys at encode time. -/
inductive Json where
  | null : Json
  | bool (b : Bool) : Json
  | num (n : Int) : Json
  | str (s : List Nat) : Json
  | arr (xs : List Json) : Json
  | obj (fields : List (List Nat × Json)) : Json

/-- Lexicographic byte comparison, the order sort.Strings gives Go map keys. -/
def keyLe : List Nat → List Nat → Bool
  | [], _ => true
  | _ :: _, [] => false
  | a :: as, b :: bs => if a < b then true else if b < a then false else keyLe as bs

def keyLt (a b : List Nat) : Bool := keyLe a b && !keyLe b a

def insertField (f : List Nat × Json) :
    List (List Nat × Json) → List (List Nat × Json)
  | [] => [f]
  | g :: gs => if keyLe f.1 g.1 then f :: g :: gs else g :: insertField f gs

/-- Sort an object's fields by key, as Go's Marshal does for map keys. -/
def sortFields : List (List Nat × Json) → List (List Nat × Json)
  | [] => []
  | f :: fs => insertField f (sortFields fs)

mutual
/-- The canonical form of a value: every object's fields sorted by key. -/
def canonicalize : Json → Json
  | .null => .null
  | .bool b => .bool b
  | .num n => .num n
  | .str s => .str s
  | .arr xs => .arr (canonItems xs)
  | .obj fs => .obj (sortFields (canonFields fs))

def canonItems : List Json → List Json
  | [] => []
  | x :: xs => canonicalize x :: canonItems xs

def canonFields : List (List Nat × Json) → List (List Nat × Json)
  | [] => []
  | f :: fs => (f.1, canonicalize f.2) :: canonFields fs
end

def hexDigit (n : Nat) : Nat := if n < 10 then 48 + n else 87 + n

/-- Go encoding/json string escaping with SetEscapeHTML(false): quote,
backslash, newline, carriage return and tab get two-character escapes, other
control characters lowercase u00xx, U+2028 and U+2029 get u2028 and u2029,
and everything else, the HTML-unsafe characters included, is emitted
literally. -/
def escapeChar (c : Nat) : List Nat :=
  if c = 34 then [92, 34]
  else if c = 92 then [92, 92]
  else if c = 10 then [92, 110]
  else if c = 13 then [92, 114]
  else if c = 9 then [92, 116]
  else if c < 32 then [92, 117, 48, 48, hexDigit (c / 16), hexDigit (c % 16)]
  else if c = 8232 then [92, 117, 50, 48, 50, 56]
  else if c = 8233 then [92, 117, 50, 48, 50, 57]
  else [c]

def encodeStringJ (s : List Nat) : List Nat :=
  34 :: (s.flatMap escapeChar ++ [34])

def natDigits : Nat → Nat → List Nat
  | 0, _ => []
  | fuel + 1, n =>
    if n < 10 then [48 + n] else natDigits fuel (n / 10) ++ [48 + n % 10]

/-- strconv.AppendInt: decimal digits with a leading minus when negative. -/
def intBytes (i : Int) : List Nat :=
  if i < 0 then 45 :: natDigits (i.natAbs + 1) i.natAbs
  else natDigits (i.natAbs + 1) i.natAbs

mutual
/-- Token emission of Go json.Marshal: no whitespace around any token;
fields are emitted in the order they stand (Marshal has already sorted
them, see encodeJson). -/
def plainEncode : Json → List Nat
  | .null => [110, 117, 108, 108]
  | .bool true => [116, 114, 117, 101]
  | .bool false => [102, 97, 108, 115, 101]
  | .num i => intBytes i
  | .str s => encodeStringJ s
  | .arr xs => 91 :: (plainItems xs ++ [93])
  | .obj fs => 123 :: (plainFields fs ++ [125])

def plainItems : List Json → List Nat
  | [] => []
  | [x] => plainEncode x
  | x :: y :: xs => plainEncode x ++ (44 :: plainItems (y :: xs))

def plainFields : List (List Nat × Json) → List Nat
  | [] => []
  | [f] => encodeStringJ f.1 ++ (58 :: plainEncode f.2)
  | f :: g :: fs =>
    (encodeStringJ f.1 ++ (58 :: plainEncode f.2)) ++ (44 :: plainFields (g :: fs))
end

/-- json.Marshal with SetEscapeHTML(false): sorted keys at every level, then
whitespace-free token emission. -/
def encodeJson (j : Json) : List Nat := plainEncode (canonicalize j)

/-- json.Encoder.Encode: the marshalled bytes followed by a newline. -/
def goEncoderEncode (j : Json) : List Nat := encodeJson j ++ [10]

/-- canon.Encode strips the encoder's trailing newline. -/
def stripNewline (bs : List Nat) : List Nat :=
  if bs.getLast? = some 10 then bs.dropLast else bs

def canonEncode (j : Json) : List Nat := stripNewline (goEncoderEncode j)

/-- Adjacent-pairs key order of an object's fields. -/
def sortedFields : List (List Nat × Json) → Bool
  | [] => true
  | [_] => true
  | f :: g :: fs => keyLe f.1 g.1 && sortedFields (g :: fs)

/-- Strict adjacent-pairs key order. -/
def strictSortedFields : List (List Nat × Json) → Bool
  | [] => true
  | [_] => true
  | f :: g :: fs => keyLt f.1 g.1 && strictSortedFields (g :: fs)

def keyNotIn (k : List Nat) : List (List Nat × Json) → Bool
  | [] => true
  | f :: fs => (if k = f.1 then false else true) && keyNotIn k fs

/-- No two fields share a key: the invariant every Go map value satisfies. -/
def nodupKeys : List (List Nat × Json) → Bool
  | [] => true
  | f :: fs => keyNotIn f.1 fs && nodupKeys fs

mutual
def wfJson : Json → Bool
  | .null => true
  | .bool _ => true
  | .num _ => true
  | .str _ => true
  | .arr xs => wfItems xs
  | .obj fs => nodupKeys fs && wfFields fs

def wfItems : List Json → Bool
  | [] => true
  | x :: xs => wfJson x && wfItems xs

def wfFields : List (List Nat × Json) → Bool
  | [] => true
  | f :: fs => wfJson f.2 && wfFields fs
end

mutual
/-- Keys of every nested object are in strict lexicographic order. -/
def objsSorted : Json → Bool
  | .null => true
  | .bool _ => true
  | .num _ => true
  | .str _ => true
  | .arr xs => itemsSorted xs
  | .obj fs => strictSortedFields fs && fieldsSorted fs

def itemsSorted : List Json → Bool
  | [] => true
  | x :: xs => objsSorted x && itemsSorted xs

def fieldsSorted : List (List Nat × Json) → Bool
  | [] => true
  | f :: fs => objsSorted f.2 && fieldsSorted fs
end

mutual
/-- No string or key of the value contains a space character; tab, newline
and carriage return may occur anywhere since the encoder escapes them. -/
def noSpaceStrings : Json → Bool
  | .null => true
  | .bool _ => true
  | .num _ => true
  | .str s => if 32 ∈ s then false else true
  | .arr xs => noSpaceItems xs
  | .obj fs => noSpaceFields fs

def noSpaceItems : List Json → Bool
  | [] => true
  | x :: xs => noSpaceStrings x && noSpaceItems xs

def noSpaceFields : List (List Nat × Json) → Bool
  | [] => true
  | f :: fs =>
    (if 32 ∈ f.1 then false else true) && (noSpaceStrings f.2 && noSpaceFields fs)
end

/-- The whitespace bytes insignificant whitespace would consist of. -/
def notWsB (b : Nat) : Prop := b ≠ 9 ∧ b ≠ 10 ∧ b ≠ 13 ∧ b ≠ 32

/-- A sample manifest-like value with unsorted keys and HTML-unsafe text. -/
def sampleJson : Json :=
  .obj [(strBytes "b", .arr [.num 1, .null, .str (strBytes "x<y>&z")]),
        (strBytes "a", .num (-5))]

theorem b64Val_b64Char : ∀ n < 64, b64Val (b64Char n) = some n := by decide

theorem b64Char_ne_pad : ∀ n < 64, b64Char n ≠ 61 := by decide

theorem b64Decode_b64Encode (l : List Nat) (h : ∀ b ∈ l, b < 256) :
    b64Decode (b64Encode l) = some l := by
  induction l using b64Encode.induct with
  | case1 => simp [b64Encode, b64Decode]
  | case2 a =>
    have ha : a < 256 := h a (by simp)
    have h1 : b64Val (b64Char (a / 4)) = some (a / 4) := b64Val_b64Char _ (by omega)
    have h2 : b64Val (b64Char (a % 4 * 16)) = some (a % 4 * 16) := b64Val_b64Char _ (by omega)
    simp [b64Encode, b64Decode, h1, h2]
    omega
  | case3 a b =>
    have ha : a < 256 := h a (by simp)
    have hb : b < 256 := h b (by simp)
    have h1 : b64Val (b64Char (a / 4)) = some (a / 4) := b64Val_b64Char _ (by omega)
    have h2 : b64Val (b64Char (a % 4 * 16 + b / 16)) = some (a % 4 * 16 + b / 16) :=
      b64Val_b64Char _ (by omega)
    have h3 : b64Val (b64Char (b % 16 * 4)) = some (b % 16 * 4) := b64Val_b64Char _ (by omega)
    have hne : b64Char (a % 4 * 16 + b / 16) ≠ 61 := b64Char_ne_pad _ (by omega)
    have hne3 : b64Char (b % 16 * 4) ≠ 61 := b64Char_ne_pad _ (by omega)
    simp [b64Encode, b64Decode, h1, h2, h3, hne3]
    omega
  | case4 a b c rest ih =>
    have ha : a < 256 := h a (by simp)
    have hb : b < 256 := h b (by simp)
    have hc : c < 256 := h c (by simp)
    have h1 : b64Val (b64Char (a / 4)) = some (a / 4) := b64Val_b64Char _ (by omega)
    have h2 : b64Val (b64Char (a % 4 * 16 + b / 16)) = some (a % 4 * 16 + b / 16) :=
      b64Val_b64Char _ (by omega)
    have h3 : b64Val (b64Char (b % 16 * 4 + c / 64)) = some (b % 16 * 4 + c / 64) :=
      b64Val_b64Char _ (by omega)
    have h4 : b64Val (b64Char (c % 64)) = some (c % 64) := b64Val_b64Char _ (by omega)
    have hne3 : b64Char (b % 16 * 4 + c / 64) ≠ 61 := b64Char_ne_pad _ (by omega)
    have hne4 : b64Char (c % 64) ≠ 61 := b64Char_ne_pad _ (by omega)
    have ihl : b64Decode (b64Encode rest) = some rest := by
      apply ih
      intro x hx
      exact h x (by simp [hx])
    simp [b64Encode, b64Decode, h1, h2, h3, h4, hne3, hne4, ihl]
    refine ⟨by omega, by omega, by omega⟩

theorem shaRound_length (st : List Nat) (kw : Nat × Nat) : (shaRound st kw).length = st.length := by
  unfold shaRound
  split <;> simp_all

theorem foldl_shaRound_length (l : List (Nat × Nat)) (st : List Nat) :
    (l.foldl (fun st kw => shaRound st (kw.1, kw.2)) st).length = st.length := by
  induction l generalizing st with
  | nil => rfl
  | cons a t ih => simp [List.foldl_cons, ih, shaRound_length]

theorem shaBlock_length (h block : List Nat) : (shaBlock h block).length = h.length := by
  show ((h.zip ((shaK.zip (shaExtend (bytesToWords block) 48)).foldl shaRound h)).map
    (fun p => wmask (p.1 + p.2))).length = h.length
  rw [List.length_map, List.length_zip, foldl_shaRound_length, Nat.min_self]

theorem foldl_shaBlock_length (blocks : List (List Nat)) (h : List Nat) :
    (blocks.foldl shaBlock h).length = h.length := by
  induction blocks generalizing h with
  | nil => rfl
  | cons b t ih => simp [List.foldl_cons, ih, shaBlock_length]

theorem flatMap_wordBytes_length (ws : List Nat) : (ws.flatMap wordBytes).length = 4 * ws.length := by
  induction ws with
  | nil => rfl
  | cons w t ih => simp [List.flatMap_cons, ih, wordBytes]; omega

theorem sha256_length (msg : List Nat) : (sha256 msg).length = 32 := by
  unfold sha256
  rw [flatMap_wordBytes_length, foldl_shaBlock_length]
  rfl

theorem sha256_bytes_lt (msg : List Nat) : ∀ b ∈ sha256 msg, b < 256 := by
  intro b hb
  unfold sha256 at hb
  simp [List.mem_flatMap, wordBytes] at hb
  obtain ⟨w, _, hw⟩ := hb
  rcases hw with h | h | h | h <;> omega

theorem hmacSha256_length (key msg : List Nat) : (hmacSha256 key msg).length = 32 :=
  sha256_length _

theorem pbkdf2Iter_length (password u acc : List Nat) (n : Nat) (ha : acc.length = 32) :
    (pbkdf2Iter password u acc n).length = 32 := by
  induction n generalizing u acc with
  | zero => simpa [pbkdf2Iter] using ha
  | succ k ih =>
    simp only [pbkdf2Iter]
    exact ih _ _ (by simp [ha, hmacSha256_length])

theorem pbkdf2Block_length (password salt : List Nat) (iters i : Nat) :
    (pbkdf2Block password salt iters i).length = 32 := by
  unfold pbkdf2Block
  exact pbkdf2Iter_length _ _ _ _ (hmacSha256_length _ _)

theorem vaultDeriveKey_length (password salt : List Nat) :
    (vaultDeriveKey password salt).length = 32 := by
  unfold vaultDeriveKey pbkdf2HmacSha256
  simp [List.range_succ, pbkdf2Block_length]

/-- C8: For every plaintext x and password k (and every fresh 16-byte salt and
12-byte nonce), DecryptData(EncryptData(x, k), k) = x; the ciphertext blob is
|x| + 44 bytes long (16-byte salt, 12-byte nonce, ciphertext plus 16-byte GCM
tag); and the key is vaultDeriveKey = PBKDF2-HMAC-SHA256 with 4096 iterations
and a 32-byte output. The two hypotheses about `gcm` are the AES-256-GCM
correctness facts (open inverts seal; seal adds a 16-byte tag). -/
theorem vault_encrypt_decrypt_roundtrip (gcm : GCM) (password salt nonce x : List Nat)
    (hs : salt.length = 16) (hn : nonce.length = 12)
    (hopen : gcm.aeadOpen (vaultDeriveKey password salt) nonce
        (gcm.aeadSeal (vaultDeriveKey password salt) nonce x) = some x)
    (hlen : (gcm.aeadSeal (vaultDeriveKey password salt) nonce x).length = x.length + 16) :
    DecryptData gcm password (EncryptData gcm password salt nonce x) = .ok x
    ∧ (EncryptData gcm password salt nonce x).length = x.length + 44
    ∧ vaultDeriveKey password salt = pbkdf2HmacSha256 password salt 4096 32
    ∧ (vaultDeriveKey password salt).length = 32 := by
  have hblob : (EncryptData gcm password salt nonce x).length = x.length + 44 := by
    simp [EncryptData, hs, hn, hlen]
    omega
  refine ⟨?_, hblob, rfl, vaultDeriveKey_length _ _⟩
  have htake : (EncryptData gcm password salt nonce x).take 16 = salt := by
    unfold EncryptData
    rw [List.append_assoc, ← hs, List.take_left]
  have hdrop : (EncryptData gcm password salt nonce x).drop 16 =
      nonce ++ gcm.aeadSeal (vaultDeriveKey password salt) nonce x := by
    unfold EncryptData
    rw [List.append_assoc, ← hs, List.drop_left]
  have htaken : ((EncryptData gcm password salt nonce x).drop 16).take 12 = nonce := by
    rw [hdrop, ← hn, List.take_left]
  have hdrop28 : (EncryptData gcm password salt nonce x).drop 28 =
      gcm.aeadSeal (vaultDeriveKey password salt) nonce x := by
    unfold EncryptData
    have h28 : (28 : Nat) = (salt ++ nonce).length := by simp [hs, hn]
    rw [h28, List.drop_left]
  unfold DecryptData
  rw [if_neg (by omega), htake, htaken, hdrop28, hopen]

/-- C8 witness: concrete run with the dummy AEAD. -/
theorem vault_encrypt_decrypt_roundtrip_witness :
    DecryptData dummyGcm [7] (EncryptData dummyGcm [7] (List.replicate 16 1) (List.replicate 12 2) [9, 8]) = .ok [9, 8]
    ∧ (EncryptData dummyGcm [7] (List.replicate 16 1) (List.replicate 12 2) [9, 8]).length = 2 + 44
    ∧ vaultDeriveKey [7] (List.replicate 16 1) = pbkdf2HmacSha256 [7] (List.replicate 16 1) 4096 32
    ∧ (vaultDeriveKey [7] (List.replicate 16 1)).length = 32 := by
  have h := vault_encrypt_decrypt_roundtrip dummyGcm [7] (List.replicate 16 1) (List.replicate 12 2)
    [9, 8] (by simp) (by simp) (by simp [dummyGcm]) (by simp [dummyGcm])
  simpa using h

/-- C9: DecryptData rejects every blob shorter than 28 bytes with the
short-data error, and a GCM authentication failure (a `none` from open,
Go's "cipher: message authentication failed", covering both tampered
ciphertext and a wrong vault password) surfaces as the distinct `authFailed`
error, different from the short-data error. -/
theorem vault_decrypt_error_kinds (gcm : GCM) (password data : List Nat) :
    (data.length < 28 → DecryptData gcm password data = .error .tooShort)
    ∧ (28 ≤ data.length →
        gcm.aeadOpen (vaultDeriveKey password (data.take 16)) ((data.drop 16).take 12)
          (data.drop 28) = none →
        DecryptData gcm password data = .error .authFailed)
    ∧ VaultError.authFailed ≠ VaultError.tooShort := by
  refine ⟨?_, ?_, by simp⟩
  · intro h
    unfold DecryptData
    rw [if_pos (by omega)]
  · intro h hopen
    unfold DecryptData
    rw [if_neg (by omega)]
    simp only [hopen]

/-- C9 witness: a 27-byte blob is rejected as too short; a 28-byte blob whose
(empty) ciphertext cannot authenticate yields the tampering error. -/
theorem vault_decrypt_error_kinds_witness :
    DecryptData dummyGcm [1] (List.replicate 27 0) = .error .tooShort
    ∧ DecryptData dummyGcm [1] (List.replicate 28 0) = .error .authFailed :=
  ⟨(vault_decrypt_error_kinds dummyGcm [1] (List.replicate 27 0)).1 (by simp),
   (vault_decrypt_error_kinds dummyGcm [1] (List.replicate 28 0)).2.1 (by simp) (by simp [dummyGcm])⟩

/-- C6: in every response built by the signing flow, the SHA-256 of the
base64-decoded signerXmlBase64 equals the base64-decoded
payloadCanonicalSha256, the nonce is the manifest's nonce verbatim, and the
signature format is the constant "CAdES-detached". -/
theorem sign_response_invariants (req : SignRequest) (xmlBytes signatureDER : List Nat)
    (signedAt certPEM : String) (chainPEM : List String) (osName : String)
    (hx : ∀ b ∈ xmlBytes, b < 256) :
    (b64Decode (buildSignResponse req xmlBytes signatureDER signedAt certPEM chainPEM osName).signerXmlBase64).map sha256
      = b64Decode (buildSignResponse req xmlBytes signatureDER signedAt certPEM chainPEM osName).payloadCanonicalSha256
    ∧ (buildSignResponse req xmlBytes signatureDER signedAt certPEM chainPEM osName).nonce = req.nonce
    ∧ (buildSignResponse req xmlBytes signatureDER signedAt certPEM chainPEM osName).signatureFormat = "CAdES-detached" := by
  refine ⟨?_, rfl, rfl⟩
  show (b64Decode (b64Encode xmlBytes)).map sha256 = b64Decode (b64Encode (sha256 xmlBytes))
  rw [b64Decode_b64Encode xmlBytes hx, b64Decode_b64Encode (sha256 xmlBytes) (sha256_bytes_lt xmlBytes)]
  rfl

/-- C6 witness: concrete response over a 2-byte XML payload. -/
theorem sign_response_invariants_witness :
    (b64Decode (buildSignResponse sampleRequest [104, 105] [1] "t" "c" [] "linux").signerXmlBase64).map sha256
      = b64Decode (buildSignResponse sampleRequest [104, 105] [1] "t" "c" [] "linux").payloadCanonicalSha256
    ∧ (buildSignResponse sampleRequest [104, 105] [1] "t" "c" [] "linux").nonce = sampleRequest.nonce
    ∧ (buildSignResponse sampleRequest [104, 105] [1] "t" "c" [] "linux").signatureFormat = "CAdES-detached" :=
  sign_response_invariants sampleRequest [104, 105] [1] "t" "c" [] "linux" (by simp)

theorem addAttempts_append (l1 l2 : List DecodeAttempt) :
    ∀ seen acc, addAttempts seen acc (l1 ++ l2) =
      addAttempts (addAttempts seen acc l1).1 (addAttempts seen acc l1).2 l2 := by
  induction l1 with
  | nil => intro seen acc; rfl
  | cons a t ih =>
    intro seen acc
    by_cases h : attemptKey a ∈ seen <;> simp [addAttempts, h, ih]

theorem addAttempts_dup (seen : List (List Nat × String)) (acc : List DecodeAttempt)
    (x : DecodeAttempt) (l : List DecodeAttempt) :
    addAttempts seen acc (x :: x :: l) = addAttempts seen acc (x :: l) := by
  by_cases h : attemptKey x ∈ seen
  · simp [addAttempts, h]
  · simp [addAttempts, h]

theorem addAttempts_dup_middle (l1 : List DecodeAttempt) :
    ∀ seen acc (x : DecodeAttempt) (l2 : List DecodeAttempt),
      addAttempts seen acc (l1 ++ x :: x :: l2) = addAttempts seen acc (l1 ++ x :: l2) := by
  induction l1 with
  | nil => intro seen acc x l2; exact addAttempts_dup seen acc x l2
  | cons a t ih =>
    intro seen acc x l2
    by_cases h : attemptKey a ∈ seen <;> simp [addAttempts, h, ih]

theorem decodeLoop_firstSuccess (decode : List Nat → String → Except GoError DecodedChain)
    (pw : String) :
    ∀ (attempts : List DecodeAttempt) (r : DecodedChain) (h : Bool) (f l : Option GoError),
      firstSuccess decode attempts = some r →
      decodeLoop decode pw attempts h f l = .ok r := by
  intro attempts
  induction attempts with
  | nil => intro r h f l hfs; exact absurd hfs (by simp [firstSuccess])
  | cons a t ih =>
    intro r h f l hfs
    cases hd : decode a.data a.pass with
    | ok r' =>
      rw [firstSuccess, hd] at hfs
      rw [decodeLoop, hd]
      exact congrArg Except.ok (Option.some.inj hfs)
    | error e =>
      rw [firstSuccess, hd] at hfs
      rw [decodeLoop, hd]
      exact ih r _ _ _ hfs

/-- C2: the attempt source tries, in order, (raw, user pw), (raw, empty),
(normalized, user pw), (normalized, empty), (normalized+MAC(user), user pw),
(normalized+MAC(empty), empty), deduplicated by (sha256 bytes, password);
and the decode run returns the first successful attempt's result. The
hypotheses state that BER normalization and the MAC rewrites succeed, which
is what makes those candidate byte strings exist. -/
theorem pkcs12_attempt_order (normalizeBER : List Nat → Option (List Nat))
    (recomputePFXMAC : List Nat → String → Option (List Nat))
    (data : List Nat) (password : String) (norm macU macE : List Nat)
    (hn : normalizeBER data = some norm)
    (hmU : recomputePFXMAC norm password = some macU)
    (hmE : recomputePFXMAC norm "" = some macE) :
    buildAttempts normalizeBER recomputePFXMAC data password =
      dedupByKey [⟨data, password⟩, ⟨data, ""⟩, ⟨norm, password⟩, ⟨norm, ""⟩,
        ⟨macU, password⟩, ⟨macE, ""⟩]
    ∧ ∀ (decode : List Nat → String → Except GoError DecodedChain)
        (attempts : List DecodeAttempt) (r : DecodedChain),
        firstSuccess decode attempts = some r →
        decodeWithAttempts decode attempts password = .ok r := by
  constructor
  · by_cases hp : password = ""
    · subst hp
      have hme : macU = macE := by rw [hmU] at hmE; exact Option.some.inj hmE
      subst hme
      unfold buildAttempts dedupByKey
      rw [hn]
      simp only [alternatePasswords, ite_true, if_true, eq_self_iff_true, List.map_cons,
        List.map_nil, List.filterMap_cons, List.filterMap_nil, hmU, Option.map_some, Option.map_some']
      have e1 : addAttempts [] [] [(⟨data, ""⟩ : DecodeAttempt), ⟨data, ""⟩, ⟨norm, ""⟩,
          ⟨norm, ""⟩, ⟨macU, ""⟩, ⟨macU, ""⟩] =
          addAttempts [] [] [⟨data, ""⟩, ⟨norm, ""⟩, ⟨norm, ""⟩, ⟨macU, ""⟩, ⟨macU, ""⟩] :=
        addAttempts_dup _ _ _ _
      have e2 : addAttempts [] [] [(⟨data, ""⟩ : DecodeAttempt), ⟨norm, ""⟩, ⟨norm, ""⟩,
          ⟨macU, ""⟩, ⟨macU, ""⟩] =
          addAttempts [] [] [⟨data, ""⟩, ⟨norm, ""⟩, ⟨macU, ""⟩, ⟨macU, ""⟩] :=
        addAttempts_dup_middle [⟨data, ""⟩] _ _ _ _
      have e3 : addAttempts [] [] [(⟨data, ""⟩ : DecodeAttempt), ⟨norm, ""⟩,
          ⟨macU, ""⟩, ⟨macU, ""⟩] =
          addAttempts [] [] [⟨data, ""⟩, ⟨norm, ""⟩, ⟨macU, ""⟩] :=
        addAttempts_dup_middle [⟨data, ""⟩, ⟨norm, ""⟩] _ _ _ _
      rw [e1, e2, e3]
      have happ1 := addAttempts_append [(⟨data, ""⟩ : DecodeAttempt)]
        [⟨norm, ""⟩, ⟨macU, ""⟩] [] []
      have happ2 := addAttempts_append [(⟨norm, ""⟩ : DecodeAttempt)] [⟨macU, ""⟩]
        (addAttempts [] [] [(⟨data, ""⟩ : DecodeAttempt)]).1
        (addAttempts [] [] [(⟨data, ""⟩ : DecodeAttempt)]).2
      simp only [List.cons_append, List.nil_append] at happ1 happ2
      rw [happ1, happ2]
    · have hp' : ¬ ("" = password) := fun h => hp (Eq.symm h)
      unfold buildAttempts dedupByKey
      rw [hn]
      simp only [alternatePasswords, if_neg hp', List.map_cons, List.map_nil,
        List.filterMap_cons, List.filterMap_nil, hmU, hmE, Option.map_some, Option.map_some']
      have happ1 := addAttempts_append [(⟨data, password⟩ : DecodeAttempt), ⟨data, ""⟩]
        [⟨norm, password⟩, ⟨norm, ""⟩, ⟨macU, password⟩, ⟨macE, ""⟩] [] []
      have happ2 := addAttempts_append [(⟨norm, password⟩ : DecodeAttempt), ⟨norm, ""⟩]
        [⟨macU, password⟩, ⟨macE, ""⟩]
        (addAttempts [] [] [(⟨data, password⟩ : DecodeAttempt), ⟨data, ""⟩]).1
        (addAttempts [] [] [(⟨data, password⟩ : DecodeAttempt), ⟨data, ""⟩]).2
      simp only [List.cons_append, List.nil_append] at happ1 happ2
      rw [happ1, happ2]
  · intro decode attempts r hfs
    exact decodeLoop_firstSuccess decode password attempts r false none none hfs

/-- C2 witness: a concrete normalizer and MAC rewrite; with user password "p"
the six attempts all have distinct (bytes, password) keys and survive
deduplication; a single-attempt run returning success is returned as is. -/
theorem pkcs12_attempt_order_witness :
    buildAttempts normPlus macPlus [1] "p" =
      dedupByKey [⟨[1], "p"⟩, ⟨[1], ""⟩, ⟨[1, 0], "p"⟩, ⟨[1, 0], ""⟩,
        ⟨[1, 0, 1], "p"⟩, ⟨[1, 0, 0], ""⟩]
    ∧ decodeWithAttempts decodeNonSigner [⟨[2], "q"⟩] "p" = .ok ⟨⟨false, 0⟩, 1, []⟩ := by
  have h := pkcs12_attempt_order normPlus macPlus [1] "p" [1, 0] [1, 0, 1] [1, 0, 0]
    rfl rfl rfl
  exact ⟨h.1, h.2 decodeNonSigner [⟨[2], "q"⟩] ⟨⟨false, 0⟩, 1, []⟩ rfl⟩

/-- C1: JWS verification succeeds only when the canonical encoding of the
manifest with organizerSignature omitted is byte-for-byte the base64url
decoding of the JWS payload; and whenever the steps before the comparison
succeed but the two byte strings differ, Verify fails with the
payload-mismatch error. -/
theorem jws_verify_payload_consistency (env : JwsEnv) (req : SignRequest) :
    (Verify env (some req) = .ok () →
      ∃ sig headerB64 payloadB64 signatureB64 canonicalBytes,
        req.organizerSignature = some sig ∧
        splitOnChar '.' sig.value = [headerB64, payloadB64, signatureB64] ∧
        env.canonEncode { req with organizerSignature := none } = .ok canonicalBytes ∧
        b64UrlDecode (strBytes payloadB64) = some canonicalBytes)
    ∧ (∀ (sig : OrganizerSignature) (jwks : JWKS) (key : JWK) (px py : Nat)
        (canonicalBytes : List Nat) (headerB64 payloadB64 signatureB64 : String)
        (headerBytes payloadBytes : List Nat),
        req.organizerSignature = some sig → sig.value ≠ "" →
        req.organizer.jwkSetUrl ≠ "" → req.organizer.kid ≠ "" →
        env.fetchJWKS req.organizer.jwkSetUrl = .ok jwks →
        jwks.keys.find? (fun k => k.kid = req.organizer.kid) = some key →
        key.toPublicKey env = .ok (.ec px py) →
        env.canonEncode { req with organizerSignature := none } = .ok canonicalBytes →
        splitOnChar '.' sig.value = [headerB64, payloadB64, signatureB64] →
        b64UrlDecode (strBytes headerB64) = some headerBytes →
        env.parseHeaderAlg headerBytes = .ok (some "ES256") →
        b64UrlDecode (strBytes payloadB64) = some payloadBytes →
        payloadBytes ≠ canonicalBytes →
        Verify env (some req) = .error .payloadMismatch) := by
  constructor
  · intro h
    unfold Verify at h
    cases hsig : req.organizerSignature with
    | none => simp [hsig] at h
    | some sig =>
    simp only [hsig] at h
    by_cases hv : sig.value = ""
    · simp [hv] at h
    rw [if_neg hv] at h
    by_cases hurl : req.organizer.jwkSetUrl = ""
    · simp [hurl] at h
    rw [if_neg hurl] at h
    by_cases hkid : req.organizer.kid = ""
    · simp [hkid] at h
    rw [if_neg hkid] at h
    cases hfetch : env.fetchJWKS req.organizer.jwkSetUrl with
    | error e => simp [hfetch] at h
    | ok jwks =>
    simp only [hfetch] at h
    cases hfind : jwks.keys.find? (fun k => k.kid = req.organizer.kid) with
    | none => simp [hfind] at h
    | some key =>
    simp only [hfind] at h
    cases hkey : key.toPublicKey env with
    | error e => simp [hkey] at h
    | ok pk =>
    cases pk with
    | nonEC => simp [hkey] at h
    | ec px py =>
    simp only [hkey] at h
    cases hcanon : env.canonEncode { req with organizerSignature := none } with
    | error e => simp [hcanon] at h
    | ok canonicalBytes =>
    simp only [hcanon] at h
    cases hsplit : splitOnChar '.' sig.value with
    | nil => simp [hsplit] at h
    | cons hB t1 =>
    cases t1 with
    | nil => simp [hsplit] at h
    | cons pB t2 =>
    cases t2 with
    | nil => simp [hsplit] at h
    | cons sB t3 =>
    cases t3 with
    | cons x t4 => simp [hsplit] at h
    | nil =>
    simp only [hsplit] at h
    cases hhdr : b64UrlDecode (strBytes hB) with
    | none => simp [hhdr] at h
    | some headerBytes =>
    simp only [hhdr] at h
    cases halg : env.parseHeaderAlg headerBytes with
    | error e => simp [halg] at h
    | ok algOpt =>
    simp only [halg] at h
    by_cases halgok : algOpt ≠ some "ES256"
    · simp [halgok] at h
    rw [if_neg halgok] at h
    cases hp : b64UrlDecode (strBytes pB) with
    | none => simp [hp] at h
    | some payloadBytes =>
    simp only [hp] at h
    by_cases hmatch : payloadBytes ≠ canonicalBytes
    · simp [hmatch] at h
    have hpc : payloadBytes = canonicalBytes := Decidable.not_not.mp hmatch
    subst hpc
    exact ⟨sig, hB, pB, sB, payloadBytes, rfl, hsplit, rfl, hp⟩
  · intro sig jwks key px py canonicalBytes headerB64 payloadB64 signatureB64 headerBytes
      payloadBytes hsig hv hurl hkid hfetch hfind hkey hcanon hsplit hhdr halg hp hne
    unfold Verify
    simp only [hsig]
    rw [if_neg hv, if_neg hurl, if_neg hkid]
    simp only [hfetch, hfind, hkey, hcanon, hsplit, hhdr, halg]
    rw [if_neg (by simp : ¬ ((some "ES256" : Option String) ≠ some "ES256"))]
    simp only [hp]
    rw [if_pos hne]

/-- C1 witness: a concrete manifest whose JWS payload "YQ" decodes to [97]
while the canonical encoding is [98]; all steps before the comparison
succeed and Verify reports the payload mismatch. -/
theorem jws_verify_payload_consistency_witness :
    Verify sampleEnv (some sampleRequest) = .error .payloadMismatch :=
  (jws_verify_payload_consistency sampleEnv sampleRequest).2
    ⟨"JWS", "e30.YQ.A"⟩ ⟨[sampleJwk]⟩ sampleJwk 97 97 [98] "e30" "YQ" "A" [123, 125] [97]
    rfl (by decide) (by decide) (by decide) rfl (by decide) rfl rfl (by decide)
    (by decide) rfl (by decide) (by decide)

theorem orElse_isSome_absorb (o x : Option GoError) (h : o.isSome) : (o <|> x) = o := by
  cases o with
  | none => simp at h
  | some v => rfl

theorem classifyAux_cons (pw : String) (e : GoError) (errs : List GoError)
    (h : Bool) (f l : Option GoError) :
    classifyAux pw errs (h || isIncorrectPasswordError e)
      (if isIncorrectPasswordError e = true then f else f <|> some e) (some e)
    = classifyAux pw (e :: errs) h f l := by
  have hh : ((h || isIncorrectPasswordError e) || errs.any isIncorrectPasswordError)
      = (h || (e :: errs).any isIncorrectPasswordError) := by
    simp [List.any_cons, Bool.or_assoc]
  have hfeq : ((if isIncorrectPasswordError e = true then f else f <|> some e) <|>
        errs.find? (fun x => !isIncorrectPasswordError x))
      = (f <|> (e :: errs).find? (fun x => !isIncorrectPasswordError x)) := by
    by_cases hie : isIncorrectPasswordError e
    · rw [if_pos hie, List.find?_cons_of_neg _ (by simp [hie])]
    · rw [if_neg hie, List.find?_cons_of_pos _ (by simp [hie])]
      cases f <;> rfl
  have hle : (errs.getLast? <|> some e) = ((e :: errs).getLast? <|> l) := by
    cases errs with
    | nil => rfl
    | cons y ys =>
      rw [List.getLast?_cons_cons]
      rw [orElse_isSome_absorb _ _ (by simp [List.getLast?_isSome]),
        orElse_isSome_absorb _ _ (by simp [List.getLast?_isSome])]
  simp only [classifyAux]
  rw [hh, hfeq, hle]

theorem decodeLoop_classifyAux (decode : List Nat → String → Except GoError DecodedChain)
    (pw : String) :
    ∀ (attempts : List DecodeAttempt) (h : Bool) (f l : Option GoError),
      (∀ a ∈ attempts, ∃ e, decode a.data a.pass = .error e) →
      decodeLoop decode pw attempts h f l =
        classifyAux pw (attemptErrors decode attempts) h f l := by
  intro attempts
  induction attempts with
  | nil =>
    intro h f l _
    simp [decodeLoop, classifyAux, attemptErrors]
  | cons a t ih =>
    intro h f l hall
    obtain ⟨e, he⟩ := hall a (by simp)
    have ht : ∀ a ∈ t, ∃ e, decode a.data a.pass = .error e :=
      fun a ha => hall a (by simp [ha])
    rw [decodeLoop, he]
    show decodeLoop decode pw t (h || isIncorrectPasswordError e)
      (if isIncorrectPasswordError e = true then f else f <|> some e) (some e) =
      classifyAux pw (attemptErrors decode (a :: t)) h f l
    have hAE : attemptErrors decode (a :: t) = e :: attemptErrors decode t := by
      rw [attemptErrors, he]
    rw [ih _ _ _ ht, hAE]
    exact classifyAux_cons pw e (attemptErrors decode t) h f l

/-- C3 (amended): when every attempt fails, the import error is
classifyFailures of the collected errors: all-password failures yield
PasswordRequired or WrongPassword according to whether the user password is
empty after trimming whitespace, and otherwise the first non-password
failure yields InvalidFile on the structural markers ("not der",
"syntax error", "trailing data", "certificate missing",
"private key missing", "error reading p12 data") and Unsupported on
everything else. -/
theorem pkcs12_error_classification (decode : List Nat → String → Except GoError DecodedChain)
    (attempts : List DecodeAttempt) (pw : String)
    (hall : ∀ a ∈ attempts, ∃ e, decode a.data a.pass = .error e) :
    decodeWithAttempts decode attempts pw =
      .error (classifyFailures (attemptErrors decode attempts) pw) := by
  rw [decodeWithAttempts, decodeLoop_classifyAux decode pw attempts false none none hall]
  unfold classifyAux classifyFailures
  simp only [Bool.false_or, Option.none_orElse, Option.orElse_none]
  set errs := attemptErrors decode attempts with herrs
  clear herrs hall
  cases hf : errs.find? (fun e => !isIncorrectPasswordError e) with
  | some e0 =>
    have he0 : isIncorrectPasswordError e0 = false := by
      have := List.find?_some hf
      simpa using this
    have hmem : e0 ∈ errs := List.mem_of_find?_eq_some hf
    have hallf : errs.all isIncorrectPasswordError = false := by
      rw [List.all_eq_false]
      exact ⟨e0, hmem, by simp [he0]⟩
    simp [hf, hallf]
    by_cases hc : isLikelyInvalidFileError e0 <;> simp [hc]
  | none =>
    have hallt : errs.all isIncorrectPasswordError = true := by
      rw [List.all_eq_true]
      intro x hx
      have := List.find?_eq_none.mp hf x hx
      simpa using this
    cases herrs' : errs with
    | nil => simp [herrs'] at hf ⊢
    | cons e0 t =>
      have hinc : isIncorrectPasswordError e0 = true := by
        rw [herrs'] at hallt
        simp only [List.all_cons, Bool.and_eq_true] at hallt
        exact hallt.1
      have hany : errs.any isIncorrectPasswordError = true := by
        rw [herrs']
        simp [hinc]
      rw [← herrs']
      simp only [hf, hallt, hany, Option.isNone_none, Bool.and_true, Bool.and_self]
      have hnemp : errs.isEmpty = false := by rw [herrs']; rfl
      simp [hnemp]
      by_cases hpw : trimSpace pw = "" <;> simp [hpw]

/-- C3 witness: one attempt failing with a sentinel password error and an
empty user password classifies as PasswordRequired. -/
theorem pkcs12_error_classification_witness :
    decodeWithAttempts decodePwErr [⟨[3], ""⟩] "" =
      .error (classifyFailures (attemptErrors decodePwErr [⟨[3], ""⟩]) "") :=
  pkcs12_error_classification decodePwErr [⟨[3], ""⟩] ""
    (fun _ _ => ⟨⟨"pkcs12: decryption password incorrect", true⟩, rfl⟩)

/-- C3 counterexample: an error whose message carries none of the four
structural markers named by the claim ("not DER", "trailing data",
"certificate missing", "private key missing") and is not a password error is
nevertheless classified InvalidFile (the code also treats "syntax error" and
"error reading p12 data" as structural), where the claim predicts
Unsupported. -/
theorem pkcs12_error_classification_counterexample :
    decodeWithAttempts decodeSyntaxError [⟨[0], "x"⟩] "x" =
      .error (.invalidFile ⟨"asn1: syntax error: truncated tag or length", false⟩)
    ∧ isIncorrectPasswordError ⟨"asn1: syntax error: truncated tag or length", false⟩ = false
    ∧ strContains (strToLower "asn1: syntax error: truncated tag or length") "not der" = false
    ∧ strContains (strToLower "asn1: syntax error: truncated tag or length") "trailing data" = false
    ∧ strContains (strToLower "asn1: syntax error: truncated tag or length") "certificate missing" = false
    ∧ strContains (strToLower "asn1: syntax error: truncated tag or length") "private key missing" = false := by
  refine ⟨rfl, by decide, by decide, by decide, by decide, by decide⟩

/-- C4 (amended): when decoding succeeds but the key does not expose signing,
ParsePKCS12 returns an error (never a partial identity), namely the plain
"parsed private key does not support signing" error, which is not the
Unsupported import kind. -/
theorem parse_pkcs12_nonsigner (decode : List Nat → String → Except GoError DecodedChain)
    (normalizeBER : List Nat → Option (List Nat))
    (recomputePFXMAC : List Nat → String → Option (List Nat))
    (data : List Nat) (pw : String) (r : DecodedChain)
    (hok : decodeWithAttempts decode (buildAttempts normalizeBER recomputePFXMAC data pw) pw
      = .ok r)
    (hns : r.priv.supportsSigning = false) :
    ParsePKCS12 decode normalizeBER recomputePFXMAC data pw =
      .error (.plain "parsed private key does not support signing")
    ∧ (ImportError.plain "parsed private key does not support signing").isUnsupportedKind
      = false := by
  constructor
  · unfold ParsePKCS12
    rw [hok]
    show verifySigner r = _
    unfold verifySigner
    rw [hns]
    simp
  · rfl

/-- C4 counterexample: the claim says the Unsupported kind is reported, but a
successful decode yielding a non-signing key produces the plain unclassified
error instead. -/
theorem parse_pkcs12_nonsigner_counterexample :
    ParsePKCS12 decodeNonSigner noNormalize noMac [1] "p" =
      .error (.plain "parsed private key does not support signing")
    ∧ (ImportError.plain "parsed private key does not support signing").isUnsupportedKind
      = false := by
  refine ⟨rfl, rfl⟩

/-- C4 witness for the amended theorem. -/
theorem parse_pkcs12_nonsigner_witness :
    ParsePKCS12 decodeNonSigner noNormalize noMac [2] "q" =
      .error (.plain "parsed private key does not support signing")
    ∧ (ImportError.plain "parsed private key does not support signing").isUnsupportedKind
      = false :=
  parse_pkcs12_nonsigner decodeNonSigner noNormalize noMac [2] "q" ⟨⟨false, 0⟩, 1, []⟩
    rfl rfl

theorem processName_eq (st : ExtractState) (a : SubjectAttr) :
    processName st a =
      { info := { st.info with
          nom := (attrUpd oidGivenName a).getD st.info.nom
          cognoms := match attrUpd oidSurname a with
            | some v => splitWordsN v
            | none => st.info.cognoms
          dni := (serialUpd a).getD st.info.dni
          organization := match attrUpd oidOrganization a with
            | some v => normalizeSpaceN v
            | none => st.info.organization
          organizationID := match attrUpd oidOrganizationIdentifier a with
            | some v => extractOrgID v
            | none => st.info.organizationID }
        hasPersonalAttrs := st.hasPersonalAttrs || pPersonal a
        hasSubjectOrg := match attrUpd oidOrganization a with
          | some v => !(normalizeSpaceN v).isEmpty
          | none => st.hasSubjectOrg
        hasSubjectOrgID := match attrUpd oidOrganizationIdentifier a with
          | some v => !(extractOrgID v).isEmpty
          | none => st.hasSubjectOrgID
        hasRepDescription := st.hasRepDescription || pDesc a } := by
  obtain ⟨typ, val⟩ := a
  cases val with
  | nonString => simp [processName, attrUpd, attrString, serialUpd, pPersonal, pDesc]
  | str v =>
    by_cases h1 : typ = oidGivenName
    · subst h1
      simp +decide [processName, attrUpd, attrString, serialUpd, pPersonal, pDesc]
    by_cases h2 : typ = oidSurname
    · subst h2
      simp +decide [processName, attrUpd, attrString, serialUpd, pPersonal, pDesc]
    by_cases h3 : typ = oidSerialNumber
    · subst h3
      by_cases he : (extractID (trimSpaceN v)).isEmpty
      · simp +decide [processName, attrUpd, attrString, serialUpd, pPersonal, pDesc, he]
      · simp +decide [processName, attrUpd, attrString, serialUpd, pPersonal, pDesc, he]
    by_cases h4 : typ = oidOrganization
    · subst h4
      simp +decide [processName, attrUpd, attrString, serialUpd, pPersonal, pDesc]
    by_cases h5 : typ = oidOrganizationIdentifier
    · subst h5
      simp +decide [processName, attrUpd, attrString, serialUpd, pPersonal, pDesc]
    by_cases h6 : typ = oidDescription
    · subst h6
      by_cases hd : containsSubN (strBytes "REG:") (toUpperA (normalizeSpaceN (trimSpaceN v))) ||
          containsSubN (strBytes "REF:AEAT") (toUpperA (normalizeSpaceN (trimSpaceN v))) ||
          containsSubN (strBytes "INSCRIPCI") (toUpperA (normalizeSpaceN (trimSpaceN v)))
      · simp +decide [processName, attrUpd, attrString, serialUpd, pPersonal, pDesc, hd]
      · simp +decide [processName, attrUpd, attrString, serialUpd, pPersonal, pDesc, hd]
    · simp [processName, attrUpd, attrString, serialUpd, pPersonal, pDesc, h1, h2, h3, h4, h5, h6]

theorem foldl_processName_spec (names : List SubjectAttr) : ∀ st : ExtractState,
    (names.foldl processName st).hasPersonalAttrs
        = (st.hasPersonalAttrs || anyPersonalAttr names)
    ∧ (names.foldl processName st).hasRepDescription
        = (st.hasRepDescription || anyRepDescription names)
    ∧ (names.foldl processName st).hasSubjectOrg
        = (match lastAttrVal oidOrganization names with
           | some v => !(normalizeSpaceN v).isEmpty
           | none => st.hasSubjectOrg)
    ∧ (names.foldl processName st).hasSubjectOrgID
        = (match lastAttrVal oidOrganizationIdentifier names with
           | some v => !(extractOrgID v).isEmpty
           | none => st.hasSubjectOrgID)
    ∧ (names.foldl processName st).info.dni
        = (match lastSerialID names with
           | some id => id
           | none => st.info.dni)
    ∧ (names.foldl processName st).info.organization
        = (match lastAttrVal oidOrganization names with
           | some v => normalizeSpaceN v
           | none => st.info.organization)
    ∧ (names.foldl processName st).info.organizationID
        = (match lastAttrVal oidOrganizationIdentifier names with
           | some v => extractOrgID v
           | none => st.info.organizationID) := by
  induction names with
  | nil =>
    intro st
    simp [anyPersonalAttr, anyRepDescription, lastAttrVal, lastSerialID]
  | cons a t ih =>
    intro st
    obtain ⟨e1, e2, e3, e4, e5, e6, e7⟩ := ih (processName st a)
    rw [List.foldl_cons]
    refine ⟨?_, ?_, ?_, ?_, ?_, ?_, ?_⟩
    · rw [e1, processName_eq]
      simp [anyPersonalAttr, Bool.or_assoc]
    · rw [e2, processName_eq]
      simp [anyRepDescription, Bool.or_assoc]
    · rw [e3, processName_eq]
      show _ = (match lastAttrVal oidOrganization t <|> attrUpd oidOrganization a with
        | some v => !(normalizeSpaceN v).isEmpty
        | none => st.hasSubjectOrg)
      cases lastAttrVal oidOrganization t <;> cases hu : attrUpd oidOrganization a <;>
        simp [hu]
    · rw [e4, processName_eq]
      show _ = (match lastAttrVal oidOrganizationIdentifier t <|>
            attrUpd oidOrganizationIdentifier a with
        | some v => !(extractOrgID v).isEmpty
        | none => st.hasSubjectOrgID)
      cases lastAttrVal oidOrganizationIdentifier t <;>
        cases hu : attrUpd oidOrganizationIdentifier a <;> simp [hu]
    · rw [e5, processName_eq]
      show _ = (match lastSerialID t <|> serialUpd a with
        | some id => id
        | none => st.info.dni)
      cases lastSerialID t <;> cases hu : serialUpd a <;> simp [hu]
    · rw [e6, processName_eq]
      show _ = (match lastAttrVal oidOrganization t <|> attrUpd oidOrganization a with
        | some v => normalizeSpaceN v
        | none => st.info.organization)
      cases lastAttrVal oidOrganization t <;> cases hu : attrUpd oidOrganization a <;>
        simp [hu]
    · rw [e7, processName_eq]
      show _ = (match lastAttrVal oidOrganizationIdentifier t <|>
            attrUpd oidOrganizationIdentifier a with
        | some v => extractOrgID v
        | none => st.info.organizationID)
      cases lastAttrVal oidOrganizationIdentifier t <;>
        cases hu : attrUpd oidOrganizationIdentifier a <;> simp [hu]

theorem applyCN_dni (info : ExtractedInfoM) (cn : List Nat) :
    (applyCNNameFallback info cn).dni = info.dni := by
  simp only [applyCNNameFallback]
  split_ifs <;> simp

theorem applyCN_org (info : ExtractedInfoM) (cn : List Nat) :
    (applyCNNameFallback info cn).organization = info.organization := by
  simp only [applyCNNameFallback]
  split_ifs <;> simp

theorem applyCN_orgID (info : ExtractedInfoM) (cn : List Nat) :
    (applyCNNameFallback info cn).organizationID = info.organizationID := by
  simp only [applyCNNameFallback]
  split_ifs <;> simp

theorem applyCN_isRep (info : ExtractedInfoM) (cn : List Nat) :
    (applyCNNameFallback info cn).isRepresentative = info.isRepresentative := by
  simp only [applyCNNameFallback]
  split_ifs <;> simp

theorem lastSerialID_nonempty (names : List SubjectAttr) :
    ∀ id, lastSerialID names = some id → id.isEmpty = false := by
  induction names with
  | nil => intro id h; simp [lastSerialID] at h
  | cons a t ih =>
    intro id h
    rw [lastSerialID] at h
    cases hl : lastSerialID t with
    | some x =>
      rw [hl] at h
      simp only [Option.some_orElse] at h
      exact (Option.some.inj h) ▸ ih x hl
    | none =>
      rw [hl] at h
      simp only [Option.none_orElse] at h
      unfold serialUpd at h
      cases ha : attrString a with
      | none =>
        simp only [ha] at h
        exact absurd h (by simp)
      | some v =>
        simp only [ha] at h
        split at h
        · have hid := Option.some.inj h
          subst hid
          rename_i hc
          simp only [Bool.and_eq_true] at hc
          simpa using hc.2
        · exact absurd h (by simp)

/-- C5 (amended): every attribute list built by SignDetached carries exactly
one signingCertificateV2 attribute, holding a single ESSCertIDv2 whose hash
algorithm is id-sha256 with explicit NULL parameters, whose certHash is
SHA-256 of the end-entity DER and whose issuerSerial is omitted; a
signaturePolicyIdentifier attribute is present exactly when a policy is
supplied whose non-empty OID parses as dotted decimal integers within the
signed 64-bit range and forms a structurally valid object identifier that
asn1.Marshal accepts, and then its OID is the parsed policy OID; with no
policy, an empty OID, an unparseable OID, or an OID asn1.Marshal rejects,
no such attribute is present. -/
theorem cades_signed_attributes (certRaw : List Nat) (policy : Option SignPolicy) :
    ((signDetachedAttrs certRaw policy).filter
        (fun a => a.type = OidSigningCertificateV2))
      = [{ type := OidSigningCertificateV2
           value := .signingCert
             { certs := [{ hashAlgorithm := { algorithm := OidSHA256
                                              parameters := some .nullValue }
                           certHash := sha256 certRaw
                           issuerSerial := none }]
               policies := [] } }]
    ∧ (policy = none →
        (signDetachedAttrs certRaw policy).filter
          (fun a => a.type = OidSignaturePolicyIdentifier) = [])
    ∧ (∀ p, policy = some p → p.oid = "" →
        (signDetachedAttrs certRaw policy).filter
          (fun a => a.type = OidSignaturePolicyIdentifier) = [])
    ∧ (∀ p, policy = some p → parseOID p.oid = none →
        (signDetachedAttrs certRaw policy).filter
          (fun a => a.type = OidSignaturePolicyIdentifier) = [])
    ∧ (∀ p o, policy = some p → p.oid ≠ "" → parseOID p.oid = some o →
        oidMarshalOk o = true →
        (signDetachedAttrs certRaw policy).filter
          (fun a => a.type = OidSignaturePolicyIdentifier)
          = [{ type := OidSignaturePolicyIdentifier
               value := .sigPolicy
                 { sigPolicyID := o
                   sigPolicyHash :=
                     { hashAlgorithm := { algorithm := OidSHA256
                                          parameters := some .nullValue }
                       hashValue := b64DecodePartial (strBytes p.hash) }
                   sigPolicyQualifiers :=
                     if p.uri ≠ "" then
                       [{ sigPolicyQualifierID := OidSignaturePolicyQualifierCPS
                          qualifierIA5 := p.uri }]
                     else [] } }])
    ∧ (∀ p o, policy = some p → parseOID p.oid = some o →
        oidMarshalOk o = false →
        (signDetachedAttrs certRaw policy).filter
          (fun a => a.type = OidSignaturePolicyIdentifier) = []) := by
  refine ⟨?_, ?_, ?_, ?_, ?_, ?_⟩
  · cases policy with
    | none => simp +decide [signDetachedAttrs]
    | some p =>
      by_cases ho : p.oid = ""
      · simp +decide [signDetachedAttrs, ho]
      · cases hparse : parseOID p.oid with
        | none => simp +decide [signDetachedAttrs, ho, hparse]
        | some o =>
          cases hmk : oidMarshalOk o with
          | true => simp +decide [signDetachedAttrs, ho, hparse, hmk]
          | false => simp +decide [signDetachedAttrs, ho, hparse, hmk]
  · intro hn
    subst hn
    simp +decide [signDetachedAttrs]
  · intro p hp ho
    subst hp
    simp +decide [signDetachedAttrs, ho]
  · intro p hp hparse
    subst hp
    by_cases ho : p.oid = ""
    · simp +decide [signDetachedAttrs, ho]
    · simp +decide [signDetachedAttrs, ho, hparse]
  · intro p o hp ho hparse hmk
    subst hp
    simp +decide [signDetachedAttrs, ho, hparse, hmk]
  · intro p o hp hparse hmk
    subst hp
    by_cases ho : p.oid = ""
    · simp +decide [signDetachedAttrs, ho]
    · simp +decide [signDetachedAttrs, ho, hparse, hmk]

/-- C5 witness: with a well-formed policy OID "1.2.3" the policy attribute is
present with the parsed OID. -/
theorem cades_signed_attributes_witness :
    (signDetachedAttrs [1]
        (some { mode := "explicit", oid := "1.2.3", hashAlg := "", hash := "", uri := "" })).filter
      (fun a => a.type = OidSignaturePolicyIdentifier)
      = [{ type := OidSignaturePolicyIdentifier
           value := .sigPolicy
             { sigPolicyID := [1, 2, 3]
               sigPolicyHash :=
                 { hashAlgorithm := { algorithm := OidSHA256, parameters := some .nullValue }
                   hashValue := [] }
               sigPolicyQualifiers := [] } }] := by
  have h := (cades_signed_attributes [1]
    (some { mode := "explicit", oid := "1.2.3", hashAlg := "", hash := "", uri := "" })).2.2.2.2.1
    { mode := "explicit", oid := "1.2.3", hashAlg := "", hash := "", uri := "" }
    [1, 2, 3] rfl (by decide) (by decide) (by decide)
  simpa using h

/-- C5 counterexample: a policy IS supplied (it is not none) yet, because its
optional OID field is empty, the produced attribute list contains no
signaturePolicyIdentifier attribute — where the claim requires one whose OID
equals the policy's. -/
theorem cades_signed_attributes_counterexample :
    (signDetachedAttrs [1] (some emptyOidPolicy)).filter
        (fun a => a.type = OidSignaturePolicyIdentifier) = []
    ∧ some emptyOidPolicy ≠ (none : Option SignPolicy) := by
  exact ⟨by decide, by decide⟩

set_option maxHeartbeats 1000000 in
theorem extractIsRepEq (cert : CertModel) :
    (ExtractSpanishIdentity cert).isRepresentative = specRepresentative cert := by
  obtain ⟨e1, e2, e3, e4, e5, e6, e7⟩ := foldl_processName_spec cert.subjectNames
    { info := { nom := [], cognoms := [], dni := [], organization := [],
                organizationID := [], isRepresentative := false,
                rawSubject := cert.subjectRaw, issuer := cert.issuerCN,
                validUntil := cert.notAfterFmt },
      hasPersonalAttrs := false, hasSubjectOrg := false, hasSubjectOrgID := false,
      hasRepDescription := false }
  unfold ExtractSpanishIdentity specRepresentative
  cases hser : lastSerialID cert.subjectNames with
  | some id =>
    have hne := lastSerialID_nonempty cert.subjectNames id hser
    simp only [e1, e2, e3, e4, e5, e6, e7, Bool.false_or, hser, hne,
      apply_ite ExtractedInfoM.isRepresentative, apply_ite ExtractedInfoM.dni,
      apply_ite ExtractedInfoM.organization, apply_ite ExtractedInfoM.organizationID,
      applyCN_isRep, applyCN_dni, ite_self, Bool.false_eq_true, if_false,
      subjectOrgIDPresent, subjectOrgPresent, specPersonalIdentity, specDNI,
      anyPersonalAttr, anyRepDescription]
  | none =>
    simp only [e1, e2, e3, e4, e5, e6, e7, Bool.false_or, hser,
      apply_ite ExtractedInfoM.isRepresentative,
      applyCN_isRep, applyCN_dni, ite_self]
    simp only [apply_ite ExtractedInfoM.dni, ite_self, e5, hser, List.isEmpty_nil, if_true]
    simp only [subjectOrgIDPresent, subjectOrgPresent, specPersonalIdentity, specDNI, hser]

theorem ite_isEmpty_nil {a : Sort _} (x y : a) :
    (if ([] : List Nat).isEmpty = true then x else y) = x := if_pos rfl

set_option maxHeartbeats 4000000 in
theorem extractClearsFields (cert : CertModel) (hs : specRepresentative cert = false) :
    (ExtractSpanishIdentity cert).organization = []
    ∧ (ExtractSpanishIdentity cert).organizationID = [] := by
  obtain ⟨e1, e2, e3, e4, e5, e6, e7⟩ := foldl_processName_spec cert.subjectNames
    { info := { nom := [], cognoms := [], dni := [], organization := [],
                organizationID := [], isRepresentative := false,
                rawSubject := cert.subjectRaw, issuer := cert.issuerCN,
                validUntil := cert.notAfterFmt },
      hasPersonalAttrs := false, hasSubjectOrg := false, hasSubjectOrgID := false,
      hasRepDescription := false }
  unfold specRepresentative at hs
  simp only [Bool.or_eq_false_iff] at hs
  obtain ⟨⟨⟨⟨hA, hB1, hB2⟩, hC⟩, hD⟩, hE⟩ := hs
  simp only [subjectOrgIDPresent] at hA
  simp only [subjectOrgPresent] at hC hE
  have hB2' : extractRepresentativeID (normalizeSpaceN cert.subjectCN) = [] := by
    cases hx : extractRepresentativeID (normalizeSpaceN cert.subjectCN) with
    | nil => rfl
    | cons a t => rw [hx] at hB2; simp at hB2
  have horgid : (cert.subjectNames.foldl processName
      { info := { nom := [], cognoms := [], dni := [], organization := [],
                  organizationID := [], isRepresentative := false,
                  rawSubject := cert.subjectRaw, issuer := cert.issuerCN,
                  validUntil := cert.notAfterFmt },
        hasPersonalAttrs := false, hasSubjectOrg := false, hasSubjectOrgID := false,
        hasRepDescription := false }).info.organizationID = [] := by
    rw [e7]
    cases hoi : lastAttrVal oidOrganizationIdentifier cert.subjectNames with
    | none => rfl
    | some w =>
      rw [hoi] at hA
      have hA2 : (!(extractOrgID w).isEmpty) = false := hA
      show extractOrgID w = []
      cases hx : extractOrgID w with
      | nil => rfl
      | cons a t => rw [hx] at hA2; simp at hA2
  refine ⟨?_, ?_⟩
  · -- organization
    unfold ExtractSpanishIdentity
    cases ho : lastAttrVal oidOrganization cert.subjectNames with
    | none =>
      simp only [apply_ite ExtractedInfoM.organization, applyCN_org, ite_self,
        e6, ho, ite_self]
    | some v =>
      rw [ho] at hC hE
      have hC2 : ((!(normalizeSpaceN v).isEmpty)
          && looksRepresentativeIssuer cert.issuerCN) = false := hC
      have hE2 : ((!specPersonalIdentity cert)
          && !(normalizeSpaceN v).isEmpty) = false := hE
      cases hv : (normalizeSpaceN v).isEmpty with
      | true =>
        have hv2 : normalizeSpaceN v = [] := by simpa using hv
        simp only [apply_ite ExtractedInfoM.organization, applyCN_org, ite_self,
          e6, ho, hv2, ite_self]
      | false =>
        rw [hv] at hC2 hE2
        have hIss : looksRepresentativeIssuer cert.issuerCN = false := by
          simpa using hC2
        have hPI0 : specPersonalIdentity cert = true := by simpa using hE2
        cases hser : lastSerialID cert.subjectNames with
        | some id =>
          have hne := lastSerialID_nonempty cert.subjectNames id hser
          simp only [specPersonalIdentity, specDNI, hser] at hPI0
          simp only [apply_ite ExtractedInfoM.organization, applyCN_org, ite_self]
          simp only [e6, ho]
          simp only [applyCN_dni]
          simp only [horgid, List.isEmpty_nil, if_true, hB2']
          simp only [e5, hser, hne, Bool.false_eq_true, if_false]
          simp only [e1, e2, e3, e4, Bool.false_or, ho, hv, hA, hB1, hB2', hD,
            hIss, hPI0, List.isEmpty_nil, Bool.not_true, Bool.not_false,
            Bool.and_false, Bool.true_and, Bool.and_true, Bool.false_and,
            Bool.or_false, Bool.or_self, if_true]
        | none =>
          simp only [specPersonalIdentity, specDNI, hser] at hPI0
          simp only [apply_ite ExtractedInfoM.organization, applyCN_org, ite_self]
          simp only [e6, ho]
          simp only [applyCN_dni]
          simp only [horgid, List.isEmpty_nil, if_true, hB2']
          simp only [e5, hser]
          rw [ite_isEmpty_nil]
          dsimp only
          simp only [e1, e2, e3, e4, Bool.false_or, ho, hv, hA, hB1, hB2', hD,
            hIss, hPI0, List.isEmpty_nil, Bool.not_true, Bool.not_false,
            Bool.and_false, Bool.true_and, Bool.and_true, Bool.false_and,
            Bool.or_false, Bool.or_self, if_true]
  · -- organizationID
    unfold ExtractSpanishIdentity
    simp only [apply_ite ExtractedInfoM.organizationID, applyCN_orgID, ite_self,
      horgid, List.isEmpty_nil, if_true, hB2', ite_self]

/-- C10: ExtractSpanishIdentity classifies a certificate as representative
exactly when the amended condition specRepresentative holds: a subject
organization-identifier attribute with a non-empty extracted value is present;
or the normalized subject CN matches REPRESENT/APODERAD/"(R:" or carries an
extractable representative CIF group; or the subject carries an organization
AND the issuer CN matches REPRESENT; or a description attribute matches
REG:/REF:AEAT/INSCRIPCI; or the subject carries an organization and no
personal-holder identity at all.  When the certificate is classified
personal, the organization and organization-identifier fields of the result
are cleared. -/
theorem extract_representative_classification (cert : CertModel) :
    (ExtractSpanishIdentity cert).isRepresentative = specRepresentative cert
    ∧ (specRepresentative cert = false →
        (ExtractSpanishIdentity cert).organization = []
        ∧ (ExtractSpanishIdentity cert).organizationID = []) :=
  ⟨extractIsRepEq cert, fun hs => extractClearsFields cert hs⟩

/-- C10 witness: on the personal certificate cexIssuerRepCert the hypothesis
of the clearing part holds and both organization fields come out empty. -/
theorem extract_representative_classification_witness :
    specRepresentative cexIssuerRepCert = false
    ∧ ((ExtractSpanishIdentity cexIssuerRepCert).organization = []
       ∧ (ExtractSpanishIdentity cexIssuerRepCert).organizationID = []) :=
  ⟨by decide,
   (extract_representative_classification cexIssuerRepCert).2 (by decide)⟩

/-- C10 counterexample: a certificate whose issuer CN matches REPRESENT but
whose subject has personal attributes and no organization data is classified
personal by the code, against the claim that an issuer CN matching REPRESENT
alone makes it representative. -/
theorem extract_representative_counterexample :
    looksRepresentativeIssuer cexIssuerRepCert.issuerCN = true
    ∧ (ExtractSpanishIdentity cexIssuerRepCert).isRepresentative = false := by
  exact ⟨by decide, by decide⟩

theorem keyLe_total (a : List Nat) : ∀ b, keyLe a b = true ∨ keyLe b a = true := by
  induction a with
  | nil => intro b; left; rfl
  | cons x xs ih =>
    intro b
    cases b with
    | nil => right; rfl
    | cons y ys =>
      by_cases hxy : x < y
      · left; simp [keyLe, hxy]
      · by_cases hyx : y < x
        · right; simp [keyLe, hyx, hxy]
        · have hxy2 : x = y := by omega
          subst hxy2
          rcases ih ys with h | h
          · left; simp [keyLe, hxy, h]
          · right; simp [keyLe, hxy, h]

theorem keyLe_antisymm (a : List Nat) :
    ∀ b, keyLe a b = true → keyLe b a = true → a = b := by
  induction a with
  | nil =>
    intro b _ hba
    cases b with
    | nil => rfl
    | cons y ys => simp [keyLe] at hba
  | cons x xs ih =>
    intro b hab hba
    cases b with
    | nil => simp [keyLe] at hab
    | cons y ys =>
      by_cases hxy : x < y
      · simp [keyLe, hxy, Nat.lt_asymm hxy] at hba
      · by_cases hyx : y < x
        · simp [keyLe, hxy, hyx] at hab
        · have hxy2 : x = y := by omega
          subst hxy2
          simp only [keyLe, lt_irrefl, if_false] at hab hba
          rw [ih ys hab hba]

theorem insertField_sorted (f : List Nat × Json) (fs : List (List Nat × Json))
    (h : sortedFields fs = true) : sortedFields (insertField f fs) = true := by
  induction fs with
  | nil => rfl
  | cons g gs ih =>
    rw [insertField]
    by_cases hle : keyLe f.1 g.1 = true
    · simp only [hle, if_true]
      rw [sortedFields]
      simp [hle, h]
    · simp only [hle, if_false]
      have hge : keyLe g.1 f.1 = true := by
        rcases keyLe_total f.1 g.1 with h1 | h1
        · exact absurd h1 hle
        · exact h1
      cases gs with
      | nil =>
        rw [insertField]
        simp [sortedFields, hge]
      | cons g2 gs2 =>
        have htail : sortedFields (g2 :: gs2) = true := by
          simp only [sortedFields] at h
          exact (Bool.and_eq_true_iff.mp h).2
        have hg12 : keyLe g.1 g2.1 = true := by
          simp only [sortedFields] at h
          exact (Bool.and_eq_true_iff.mp h).1
        have hih := ih htail
        rw [insertField]
        by_cases hle2 : keyLe f.1 g2.1 = true
        · simp only [hle2, if_true]
          simp only [sortedFields]
          simp only [hge, Bool.true_and]
          rw [insertField] at hih
          simp only [hle2, if_true] at hih
          exact hih
        · simp only [hle2, if_false]
          simp only [sortedFields]
          simp only [hg12, Bool.true_and]
          rw [insertField] at hih
          simp only [hle2, if_false] at hih
          exact hih

theorem sortFields_sorted (fs : List (List Nat × Json)) :
    sortedFields (sortFields fs) = true := by
  induction fs with
  | nil => rfl
  | cons f gs ih => exact insertField_sorted f (sortFields gs) ih

theorem sortFields_of_sorted (fs : List (List Nat × Json))
    (h : sortedFields fs = true) : sortFields fs = fs := by
  induction fs with
  | nil => rfl
  | cons f gs ih =>
    cases gs with
    | nil => rfl
    | cons g gs2 =>
      simp only [sortedFields, Bool.and_eq_true] at h
      obtain ⟨hfg, htail⟩ := h
      rw [sortFields, ih htail, insertField]
      simp [hfg]

theorem sortFields_idem (fs : List (List Nat × Json)) :
    sortFields (sortFields fs) = sortFields fs :=
  sortFields_of_sorted (sortFields fs) (sortFields_sorted fs)

theorem keyNotIn_insertField (k : List Nat) (f : List Nat × Json)
    (fs : List (List Nat × Json)) :
    keyNotIn k (insertField f fs)
      = ((if k = f.1 then false else true) && keyNotIn k fs) := by
  induction fs with
  | nil => simp [insertField, keyNotIn]
  | cons g gs ih =>
    rw [insertField]
    by_cases hle : keyLe f.1 g.1 = true
    · simp [hle, keyNotIn]
    · simp only [hle, if_false]
      simp only [keyNotIn, ih]
      cases hkf : (if k = f.1 then false else true) <;>
        cases hkg : (if k = g.1 then false else true) <;>
          simp [Bool.and_assoc, Bool.and_comm, Bool.and_left_comm]

theorem nodupKeys_insertField (f : List Nat × Json) (fs : List (List Nat × Json)) :
    nodupKeys (insertField f fs) = (keyNotIn f.1 fs && nodupKeys fs) := by
  induction fs with
  | nil => simp [insertField, nodupKeys, keyNotIn]
  | cons g gs ih =>
    rw [insertField]
    by_cases hle : keyLe f.1 g.1 = true
    · simp only [hle, if_true]
      simp [nodupKeys, keyNotIn, Bool.and_assoc]
    · simp only [hle, if_false]
      simp only [nodupKeys, ih, keyNotIn_insertField, keyNotIn]
      by_cases heq : f.1 = g.1
      · simp [heq, eq_comm]
      · have heq2 : ¬(g.1 = f.1) := fun h2 => heq h2.symm
        simp only [heq, heq2, if_false, if_true, Bool.true_and]
        cases keyNotIn g.1 gs <;> cases keyNotIn f.1 gs <;>
          cases nodupKeys gs <;> simp

theorem nodupKeys_sortFields (fs : List (List Nat × Json)) :
    nodupKeys (sortFields fs) = nodupKeys fs := by
  induction fs with
  | nil => rfl
  | cons f gs ih =>
    rw [sortFields, nodupKeys_insertField]
    have hkn : keyNotIn f.1 (sortFields gs) = keyNotIn f.1 gs := by
      clear ih
      induction gs with
      | nil => rfl
      | cons g gs2 ih2 =>
        rw [sortFields, keyNotIn_insertField, ih2]
        simp [keyNotIn]
    rw [hkn, ih, nodupKeys]

theorem fieldsSorted_insertField (f : List Nat × Json) (fs : List (List Nat × Json)) :
    fieldsSorted (insertField f fs) = (objsSorted f.2 && fieldsSorted fs) := by
  induction fs with
  | nil => simp [insertField, fieldsSorted]
  | cons g gs ih =>
    rw [insertField]
    by_cases hle : keyLe f.1 g.1 = true
    · simp [hle, fieldsSorted]
    · simp only [hle, if_false]
      simp only [fieldsSorted, ih]
      cases objsSorted f.2 <;> cases objsSorted g.2 <;> simp

theorem fieldsSorted_sortFields (fs : List (List Nat × Json)) :
    fieldsSorted (sortFields fs) = fieldsSorted fs := by
  induction fs with
  | nil => rfl
  | cons f gs ih =>
    rw [sortFields, fieldsSorted_insertField, ih, fieldsSorted]

theorem noSpaceFields_insertField (f : List Nat × Json) (fs : List (List Nat × Json)) :
    noSpaceFields (insertField f fs)
      = ((if 32 ∈ f.1 then false else true)
          && (noSpaceStrings f.2 && noSpaceFields fs)) := by
  induction fs with
  | nil => simp [insertField, noSpaceFields]
  | cons g gs ih =>
    rw [insertField]
    by_cases hle : keyLe f.1 g.1 = true
    · simp [hle, noSpaceFields]
    · simp only [hle, if_false]
      simp only [noSpaceFields, ih]
      cases hf : (if 32 ∈ f.1 then false else true) <;>
        cases hg : (if 32 ∈ g.1 then false else true) <;>
          cases noSpaceStrings f.2 <;> cases noSpaceStrings g.2 <;> simp

theorem noSpaceFields_sortFields (fs : List (List Nat × Json)) :
    noSpaceFields (sortFields fs) = noSpaceFields fs := by
  induction fs with
  | nil => rfl
  | cons f gs ih =>
    rw [sortFields, noSpaceFields_insertField, ih, noSpaceFields]

theorem canonFields_insertField (f : List Nat × Json) (fs : List (List Nat × Json)) :
    canonFields (insertField f fs)
      = insertField (f.1, canonicalize f.2) (canonFields fs) := by
  induction fs with
  | nil => simp [insertField, canonFields]
  | cons g gs ih =>
    rw [insertField]
    by_cases hle : keyLe f.1 g.1 = true
    · simp [hle, canonFields, insertField]
    · simp only [hle, if_false]
      simp only [canonFields, ih, insertField]
      simp [hle]

theorem canonFields_sortFields (fs : List (List Nat × Json)) :
    canonFields (sortFields fs) = sortFields (canonFields fs) := by
  induction fs with
  | nil => rfl
  | cons f gs ih =>
    rw [sortFields, canonFields_insertField, ih, canonFields, sortFields]

theorem keyNotIn_canonFields (k : List Nat) (fs : List (List Nat × Json)) :
    keyNotIn k (canonFields fs) = keyNotIn k fs := by
  induction fs with
  | nil => rfl
  | cons f gs ih => simp [canonFields, keyNotIn, ih]

theorem nodupKeys_canonFields (fs : List (List Nat × Json)) :
    nodupKeys (canonFields fs) = nodupKeys fs := by
  induction fs with
  | nil => rfl
  | cons f gs ih => simp [canonFields, nodupKeys, keyNotIn_canonFields, ih]

theorem canonicalize_idem_all :
    (∀ j, canonicalize (canonicalize j) = canonicalize j)
    ∧ (∀ fs, canonFields (canonFields fs) = canonFields fs)
    ∧ (∀ xs, canonItems (canonItems xs) = canonItems xs) := by
  refine canonicalize.mutual_induct
    (fun j => canonicalize (canonicalize j) = canonicalize j)
    (fun fs => canonFields (canonFields fs) = canonFields fs)
    (fun xs => canonItems (canonItems xs) = canonItems xs)
    ?_ ?_ ?_ ?_ ?_ ?_ ?_ ?_ ?_ ?_
  · rfl
  · intros; rfl
  · intros; rfl
  · intros; rfl
  · intro xs ih
    simp only [canonicalize, ih]
  · intro fs ih
    simp only [canonicalize, canonFields_sortFields, ih, sortFields_idem]
  · rfl
  · intro x xs ih1 ih2
    simp only [canonItems, ih1, ih2]
  · rfl
  · intro f fs ih1 ih2
    simp only [canonFields, ih1, ih2]

theorem canonicalize_idem (j : Json) :
    canonicalize (canonicalize j) = canonicalize j :=
  canonicalize_idem_all.1 j

theorem strict_of_sorted_nodup (fs : List (List Nat × Json)) :
    sortedFields fs = true → nodupKeys fs = true →
      strictSortedFields fs = true := by
  induction fs with
  | nil => intro _ _; rfl
  | cons f gs ih =>
    intro hs hn
    cases gs with
    | nil => rfl
    | cons g gs2 =>
      simp only [sortedFields, Bool.and_eq_true] at hs
      simp only [nodupKeys, keyNotIn, Bool.and_eq_true] at hn
      obtain ⟨hfg, hs2⟩ := hs
      obtain ⟨⟨hne, hni⟩, hg, hn2⟩ := hn
      have hneq : ¬(f.1 = g.1) := by
        by_cases h : f.1 = g.1
        · rw [if_pos h] at hne; exact absurd hne (by simp)
        · exact h
      have hgf : keyLe g.1 f.1 = false := by
        by_cases h : keyLe g.1 f.1 = true
        · exact absurd (keyLe_antisymm f.1 g.1 hfg h) hneq
        · simp only [Bool.not_eq_true] at h; exact h
      simp only [strictSortedFields, keyLt, hfg, hgf, Bool.and_eq_true]
      refine ⟨by simp, ?_⟩
      exact ih hs2 (by simp only [nodupKeys, Bool.and_eq_true]; exact ⟨hg, hn2⟩)

theorem objsSorted_canonicalize_all :
    (∀ j, wfJson j = true → objsSorted (canonicalize j) = true)
    ∧ (∀ fs, wfFields fs = true → fieldsSorted (canonFields fs) = true)
    ∧ (∀ xs, wfItems xs = true → itemsSorted (canonItems xs) = true) := by
  refine canonicalize.mutual_induct
    (fun j => wfJson j = true → objsSorted (canonicalize j) = true)
    (fun fs => wfFields fs = true → fieldsSorted (canonFields fs) = true)
    (fun xs => wfItems xs = true → itemsSorted (canonItems xs) = true)
    ?_ ?_ ?_ ?_ ?_ ?_ ?_ ?_ ?_ ?_
  · intro _; rfl
  · intro b _; cases b <;> rfl
  · intro _ _; rfl
  · intro _ _; rfl
  · intro xs ih h
    simp only [wfJson] at h
    simp only [canonicalize, objsSorted]
    exact ih h
  · intro fs ih h
    simp only [wfJson, Bool.and_eq_true] at h
    obtain ⟨hnd, hwff⟩ := h
    simp only [canonicalize, objsSorted, Bool.and_eq_true]
    constructor
    · refine strict_of_sorted_nodup _ (sortFields_sorted _) ?_
      rw [nodupKeys_sortFields, nodupKeys_canonFields]
      exact hnd
    · rw [fieldsSorted_sortFields]
      exact ih hwff
  · intro _; rfl
  · intro x xs ih1 ih2 h
    simp only [wfItems, Bool.and_eq_true] at h
    simp only [canonItems, itemsSorted, Bool.and_eq_true]
    exact ⟨ih1 h.1, ih2 h.2⟩
  · intro _; rfl
  · intro f fs ih1 ih2 h
    simp only [wfFields, Bool.and_eq_true] at h
    simp only [canonFields, fieldsSorted, Bool.and_eq_true]
    exact ⟨ih1 h.1, ih2 h.2⟩

theorem noSpace_canonicalize_all :
    (∀ j, noSpaceStrings (canonicalize j) = noSpaceStrings j)
    ∧ (∀ fs, noSpaceFields (canonFields fs) = noSpaceFields fs)
    ∧ (∀ xs, noSpaceItems (canonItems xs) = noSpaceItems xs) := by
  refine canonicalize.mutual_induct
    (fun j => noSpaceStrings (canonicalize j) = noSpaceStrings j)
    (fun fs => noSpaceFields (canonFields fs) = noSpaceFields fs)
    (fun xs => noSpaceItems (canonItems xs) = noSpaceItems xs)
    ?_ ?_ ?_ ?_ ?_ ?_ ?_ ?_ ?_ ?_
  · rfl
  · intro b; cases b <;> rfl
  · intro _; rfl
  · intro _; rfl
  · intro xs ih
    simp only [canonicalize, noSpaceStrings, ih]
  · intro fs ih
    simp only [canonicalize, noSpaceStrings, noSpaceFields_sortFields, ih]
  · rfl
  · intro x xs ih1 ih2
    simp only [canonItems, noSpaceItems, ih1, ih2]
  · rfl
  · intro f fs ih1 ih2
    simp only [canonFields, noSpaceFields, ih1, ih2]

theorem hexDigit_ge (x : Nat) : 48 ≤ hexDigit x := by
  unfold hexDigit
  split_ifs <;> omega

theorem escapeChar_no_ws (c : Nat) (hc : c ≠ 32) :
    ∀ b ∈ escapeChar c, notWsB b := by
  intro b hb
  unfold escapeChar at hb
  split_ifs at hb with h1 h2 h3 h4 h5 h6 h7 h8
  · simp only [List.mem_cons, List.mem_singleton, List.not_mem_nil, or_false] at hb
    unfold notWsB
    omega
  · simp only [List.mem_cons, List.mem_singleton, List.not_mem_nil, or_false] at hb
    unfold notWsB
    omega
  · simp only [List.mem_cons, List.mem_singleton, List.not_mem_nil, or_false] at hb
    unfold notWsB
    omega
  · simp only [List.mem_cons, List.mem_singleton, List.not_mem_nil, or_false] at hb
    unfold notWsB
    omega
  · simp only [List.mem_cons, List.mem_singleton, List.not_mem_nil, or_false] at hb
    unfold notWsB
    omega
  · simp only [List.mem_cons, List.mem_singleton, List.not_mem_nil, or_false] at hb
    have g1 := hexDigit_ge (c / 16)
    have g2 := hexDigit_ge (c % 16)
    unfold notWsB
    rcases hb with h | h | h | h | h | h <;> omega
  · simp only [List.mem_cons, List.mem_singleton, List.not_mem_nil, or_false] at hb
    unfold notWsB
    rcases hb with h | h | h | h | h | h <;> omega
  · simp only [List.mem_cons, List.mem_singleton, List.not_mem_nil, or_false] at hb
    unfold notWsB
    rcases hb with h | h | h | h | h | h <;> omega
  · simp only [List.mem_singleton] at hb
    subst hb
    unfold notWsB
    refine ⟨?_, h3, h4, hc⟩
    omega

theorem encodeStringJ_no_ws (s : List Nat) (hs : ¬(32 ∈ s)) :
    ∀ b ∈ encodeStringJ s, notWsB b := by
  intro b hb
  unfold encodeStringJ at hb
  simp only [List.mem_cons, List.mem_append, List.mem_singleton,
    List.not_mem_nil, or_false, List.mem_flatMap] at hb
  rcases hb with h | ⟨c, hcs, hbc⟩ | h
  · subst h; unfold notWsB; omega
  · exact escapeChar_no_ws c (fun he => hs (he ▸ hcs)) b hbc
  · subst h; unfold notWsB; omega

theorem natDigits_ge (fuel : Nat) : ∀ n, ∀ b ∈ natDigits fuel n, 48 ≤ b := by
  induction fuel with
  | zero => intro n b hb; simp [natDigits] at hb
  | succ f ih =>
    intro n b hb
    rw [natDigits] at hb
    by_cases hn : n < 10
    · simp only [hn, if_true, List.mem_singleton] at hb
      omega
    · simp only [hn, if_false, List.mem_append, List.mem_singleton] at hb
      rcases hb with h | h
      · exact ih (n / 10) b h
      · omega

theorem intBytes_no_ws (i : Int) : ∀ b ∈ intBytes i, notWsB b := by
  intro b hb
  unfold intBytes at hb
  split_ifs at hb with h
  · simp only [List.mem_cons] at hb
    rcases hb with h2 | h2
    · subst h2; unfold notWsB; omega
    · have := natDigits_ge (i.natAbs + 1) i.natAbs b h2
      unfold notWsB
      omega
  · have := natDigits_ge (i.natAbs + 1) i.natAbs b hb
    unfold notWsB
    omega

theorem plainEncode_no_ws_all :
    (∀ j, noSpaceStrings j = true → ∀ b ∈ plainEncode j, notWsB b)
    ∧ (∀ fs, noSpaceFields fs = true → ∀ b ∈ plainFields fs, notWsB b)
    ∧ (∀ xs, noSpaceItems xs = true → ∀ b ∈ plainItems xs, notWsB b) := by
  refine plainEncode.mutual_induct
    (fun j => noSpaceStrings j = true → ∀ b ∈ plainEncode j, notWsB b)
    (fun fs => noSpaceFields fs = true → ∀ b ∈ plainFields fs, notWsB b)
    (fun xs => noSpaceItems xs = true → ∀ b ∈ plainItems xs, notWsB b)
    ?_ ?_ ?_ ?_ ?_ ?_ ?_ ?_ ?_ ?_ ?_ ?_ ?_
  · intro _ b hb
    simp only [plainEncode, List.mem_cons, List.not_mem_nil, or_false] at hb
    unfold notWsB
    rcases hb with h | h | h | h <;> omega
  · intro _ b hb
    simp only [plainEncode, List.mem_cons, List.not_mem_nil, or_false] at hb
    unfold notWsB
    rcases hb with h | h | h | h <;> omega
  · intro _ b hb
    simp only [plainEncode, List.mem_cons, List.not_mem_nil, or_false] at hb
    unfold notWsB
    rcases hb with h | h | h | h | h <;> omega
  · intro i _ b hb
    exact intBytes_no_ws i b hb
  · intro s hs b hb
    rw [plainEncode] at hb
    simp only [noSpaceStrings] at hs
    by_cases h32 : (32 : Nat) ∈ s
    · rw [if_pos h32] at hs; exact absurd hs (by simp)
    · exact encodeStringJ_no_ws s h32 b hb
  · intro xs ih hs b hb
    simp only [noSpaceStrings] at hs
    rw [plainEncode] at hb
    simp only [List.mem_cons, List.mem_append, List.mem_singleton,
      List.not_mem_nil, or_false] at hb
    rcases hb with h | h | h
    · subst h; unfold notWsB; omega
    · exact ih hs b h
    · subst h; unfold notWsB; omega
  · intro fs ih hs b hb
    simp only [noSpaceStrings] at hs
    rw [plainEncode] at hb
    simp only [List.mem_cons, List.mem_append, List.mem_singleton,
      List.not_mem_nil, or_false] at hb
    rcases hb with h | h | h
    · subst h; unfold notWsB; omega
    · exact ih hs b h
    · subst h; unfold notWsB; omega
  · intro _ b hb
    simp [plainItems] at hb
  · intro x ih hs b hb
    rw [plainItems] at hb
    simp only [noSpaceItems, Bool.and_eq_true] at hs
    exact ih hs.1 b hb
  · intro x y xs ih1 ih2 hs b hb
    simp only [noSpaceItems, Bool.and_eq_true] at hs
    rw [plainItems] at hb
    simp only [List.mem_append, List.mem_cons] at hb
    rcases hb with h | h | h
    · exact ih1 hs.1 b h
    · subst h; unfold notWsB; omega
    · exact ih2 (by simp only [noSpaceItems, Bool.and_eq_true]; exact hs.2) b h
  · intro _ b hb
    simp [plainFields] at hb
  · intro f ih hs b hb
    simp only [noSpaceFields, Bool.and_eq_true] at hs
    obtain ⟨hk, hv, _⟩ := hs
    rw [plainFields] at hb
    simp only [List.mem_append, List.mem_cons] at hb
    have hk32 : ¬(32 ∈ f.1) := by
      by_cases h : (32 : Nat) ∈ f.1
      · rw [if_pos h] at hk; exact absurd hk (by simp)
      · exact h
    rcases hb with h | h | h
    · exact encodeStringJ_no_ws f.1 hk32 b h
    · subst h; unfold notWsB; omega
    · exact ih hv b h
  · intro f g fs ih1 ih2 hs b hb
    simp only [noSpaceFields, Bool.and_eq_true] at hs
    obtain ⟨hk, hv, hrest⟩ := hs
    rw [plainFields] at hb
    simp only [List.mem_append, List.mem_cons] at hb
    have hk32 : ¬(32 ∈ f.1) := by
      by_cases h : (32 : Nat) ∈ f.1
      · rw [if_pos h] at hk; exact absurd hk (by simp)
      · exact h
    rcases hb with (h | h | h) | h | h
    · exact encodeStringJ_no_ws f.1 hk32 b h
    · subst h; unfold notWsB; omega
    · exact ih1 hv b h
    · subst h; unfold notWsB; omega
    · exact ih2 (by simp only [noSpaceFields, Bool.and_eq_true]; exact hrest) b h

theorem canonEncode_eq (j : Json) : canonEncode j = encodeJson j := by
  unfold canonEncode goEncoderEncode stripNewline
  rw [List.getLast?_concat, if_pos rfl, List.dropLast_concat]

theorem plainEncode_last (j : Json) : (plainEncode j).getLast? ≠ some 10 := by
  cases j with
  | null => decide
  | bool b => cases b <;> decide
  | num i =>
    intro hc
    have hmem := List.mem_of_mem_getLast? hc
    rw [plainEncode] at hmem
    unfold intBytes at hmem
    split_ifs at hmem with h
    · simp only [List.mem_cons] at hmem
      rcases hmem with h2 | h2
      · omega
      · have := natDigits_ge (i.natAbs + 1) i.natAbs 10 h2
        omega
    · have := natDigits_ge (i.natAbs + 1) i.natAbs 10 hmem
      omega
  | str s =>
    show (34 :: (s.flatMap escapeChar ++ [34])).getLast? ≠ some 10
    rw [show 34 :: (s.flatMap escapeChar ++ [34])
        = (34 :: s.flatMap escapeChar) ++ [34] from rfl, List.getLast?_concat]
    simp
  | arr xs =>
    show (91 :: (plainItems xs ++ [93])).getLast? ≠ some 10
    rw [show 91 :: (plainItems xs ++ [93])
        = (91 :: plainItems xs) ++ [93] from rfl, List.getLast?_concat]
    simp
  | obj fs =>
    show (123 :: (plainFields fs ++ [125])).getLast? ≠ some 10
    rw [show 123 :: (plainFields fs ++ [125])
        = (123 :: plainFields fs) ++ [125] from rfl, List.getLast?_concat]
    simp

/-- C7: canon.Encode is canonical: re-canonicalizing a value changes
neither the value nor its encoding (idempotence), every nested object of
the canonical form has its keys in strict lexicographic order (given the
Go-map invariant of duplicate-free keys), the output contains no
insignificant whitespace (no whitespace byte at all once the value's own
strings contain no space), the HTML-unsafe characters are emitted as
literals, and the trailing newline of json.Encoder is stripped, so the
output never ends in one. -/
theorem canonical_json_encode (j : Json) (hwf : wfJson j = true) :
    canonicalize (canonicalize j) = canonicalize j
    ∧ canonEncode (canonicalize j) = canonEncode j
    ∧ objsSorted (canonicalize j) = true
    ∧ (noSpaceStrings j = true → ∀ b ∈ canonEncode j, notWsB b)
    ∧ escapeChar 60 = [60] ∧ escapeChar 62 = [62] ∧ escapeChar 38 = [38]
    ∧ (canonEncode j).getLast? ≠ some 10 := by
  refine ⟨canonicalize_idem j, ?_, objsSorted_canonicalize_all.1 j hwf, ?_,
    rfl, rfl, rfl, ?_⟩
  · rw [canonEncode_eq, canonEncode_eq]
    unfold encodeJson
    rw [canonicalize_idem]
  · intro hns b hb
    rw [canonEncode_eq] at hb
    unfold encodeJson at hb
    refine plainEncode_no_ws_all.1 (canonicalize j) ?_ b hb
    rw [noSpace_canonicalize_all.1]
    exact hns
  · rw [canonEncode_eq]
    unfold encodeJson
    exact plainEncode_last (canonicalize j)

/-- C7 witness: the sample value satisfies the Go-map invariant, and the
theorem yields encoding invariance and strict key order for it; its
canonical encoding is the expected whitespace-free text with sorted keys,
literal HTML characters and no trailing newline. -/
theorem canonical_json_encode_witness :
    wfJson sampleJson = true
    ∧ canonEncode (canonicalize sampleJson) = canonEncode sampleJson
    ∧ objsSorted (canonicalize sampleJson) = true
    ∧ canonEncode sampleJson = strBytes "\x7b\"a\":-5,\"b\":[1,null,\"x<y>&z\"]\x7d" :=
  ⟨by decide, (canonical_json_encode sampleJson (by decide)).2.1,
   (canonical_json_encode sampleJson (by decide)).2.2.1, by decide⟩

end VocSign
